import Mathlib

/-!
Shallow embedding of the synchronization engine of `neo2nix` (file
`src/neo2nix/nixio.py`): the attribute codec, the identity resolver, the
reader/writer pair with its reconciliation algorithm (`Writer.Help.write_many`),
the orphan collector (`Writer.Help.clean`), the lazy proxy collection
(`ProxyList`) and the file-handle bookkeeping (`FileHandler`, `NixIO`).

Conventions of the embedding:
* Python `None` is modelled by `Option` (for object fields) or by the
  `AttrVal.none` constructor (for attribute values that may be `None`).
* Numeric scalars (array samples, sampling rates, quantity magnitudes) are
  modelled as `Rat`; "bit-exact" payload equality is equality of the sample
  lists.
* NIX entities (blocks, tags, data arrays, metadata sections) are immutable
  records threaded through the write functions; Python in-place mutation
  becomes functional update.
* Exceptions become `Except PyErr`.
-/

namespace Neo2nix

/-- A value storable in a NIX metadata property (`nix.Value`). -/
inductive NixValue where
  | i (v : Int)
  | r (v : Rat)
  | s (v : String)
  | b (v : Bool)
deriving DecidableEq, Repr

/-- A Python attribute/annotation value as seen by the codec: `None`, a
scalar, or a list/tuple of scalars. -/
inductive AttrVal where
  | none
  | scalar (v : NixValue)
  | multi (vs : List NixValue)
deriving DecidableEq, Repr

/-- Association-list lookup, modelling Python `dict` access. -/
def dlookup {α : Type} (d : List (String × α)) (k : String) : Option α :=
  (d.find? (fun kv => kv.1 = k)).map (·.2)

/-- Association-list insert-or-update, modelling Python `dict` assignment
`d[k] = v` (updates in place, otherwise appends preserving order). -/
def dinsert {α : Type} (d : List (String × α)) (k : String) (v : α) :
    List (String × α) :=
  match d with
  | [] => [(k, v)]
  | kv :: rest =>
      if kv.1 = k then (k, v) :: rest else kv :: dinsert rest k v

/-- A NIX metadata section's properties: name-keyed typed values
(`nix.Section.props`); the list order models the section's property order. -/
abbrev Sec : Type := List (String × List NixValue)

/-- The supported neo object kinds (lower-cased class names used as NIX type
tags and as keys of the `simple_attrs` table). -/
inductive ObjType where
  | block | segment | analogsignal | irregularlysampledsignal
  | spiketrain | event | epoch | recordingchannelgroup | unit
deriving DecidableEq, Repr

/-- The `simple_attrs['default']` entry of `nixio.py`. -/
def simpleAttrsDefault : List String := ["description", "file_origin"]

/-- The kind-specific rows of the `simple_attrs` table of `nixio.py`. -/
def simple_attrs : ObjType → List String
  | .block => ["file_datetime", "rec_datetime", "index"]
  | .segment => ["file_datetime", "rec_datetime", "index"]
  | .analogsignal => ["name"]
  | .irregularlysampledsignal => ["name"]
  | .spiketrain => ["name"]
  | .event => ["name"]
  | .epoch => ["name"]
  | .recordingchannelgroup => ["name", "channel_indexes", "channel_names"]
  | .unit => []

/-- `Writer.Help.extract_metadata`: start from a copy of the object's
annotation dict, then add every simple attribute (default ones first) whose
value is not `None`.  The object's attribute lookup (`getattr`) is passed in
as a function returning `AttrVal.none` for absent/None attributes. -/
def extract_metadata (getattr : String → AttrVal)
    (annots : List (String × AttrVal)) (obj_type : ObjType) :
    List (String × AttrVal) :=
  (simpleAttrsDefault ++ simple_attrs obj_type).foldl
    (fun md a =>
      match getattr a with
      | .none => md
      | v => dinsert md a v)
    annots

/-- The inner `make_nix_values` of `Writer.Help.write_metadata`: a non-list
value becomes a one-element list of `nix.Value`, a list/tuple is mapped
element-wise.  (`AttrVal.none` never reaches it: `write_metadata` filters
`None` values out first.) -/
def make_nix_values : AttrVal → List NixValue
  | .none => []
  | .scalar v => [v]
  | .multi vs => vs

/-- One step of the `write_metadata` loop on one attribute: if the section
already has the property, reassign only when the value lists differ;
otherwise create the property. -/
def setProp (sec : Sec) (k : String) (vals : List NixValue) : Sec :=
  match dlookup sec k with
  | some old => if old = vals then sec else dinsert sec k vals
  | none => sec ++ [(k, vals)]

/-- The body of the `write_metadata` loop on one attribute. -/
def wmStep (s : Sec) (kv : String × AttrVal) : Sec :=
  setProp s kv.1 (make_nix_values kv.2)

/-- `Writer.Help.write_metadata`: drop `None`-valued entries, then store each
remaining attribute into the section (create, or reassign only if changed). -/
def write_metadata (sec : Sec) (dict_to_store : List (String × AttrVal)) :
    Sec :=
  (dict_to_store.filter (fun kv => kv.2 ≠ AttrVal.none)).foldl wmStep sec

/-- The contribution of one simple attribute to the extracted metadata
dict: nothing for a `None` value, a single binding otherwise. -/
def optEntry (k : String) (v : AttrVal) : List (String × AttrVal) :=
  match v with
  | .none => []
  | v => [(k, v)]

/-- Reading one property of a section (`nix_section[key]`): a single-valued
property yields the bare value, a multi-valued one the list. -/
def secGet (sec : Sec) (k : String) : Option AttrVal :=
  (dlookup sec k).map fun vs =>
    match vs with
    | [v] => AttrVal.scalar v
    | vs => AttrVal.multi vs

/-- `Reader.Help.read_attributes`: collect every simple attribute (default
ones first) present in the section. -/
def read_attributes (sec : Sec) (obj_type : ObjType) :
    List (String × AttrVal) :=
  (simpleAttrsDefault ++ simple_attrs obj_type).foldl
    (fun res a =>
      match secGet sec a with
      | some v => res ++ [(a, v)]
      | none => res)
    []

/-- `Reader.Help.read_annotations`: every property of the section whose name
is not a simple attribute of the kind, in section order. -/
def read_annotations (sec : Sec) (obj_type : ObjType) :
    List (String × AttrVal) :=
  (sec.filter
      (fun kv => kv.1 ∉ simpleAttrsDefault ++ simple_attrs obj_type)).map
    fun kv => (kv.1,
      match kv.2 with
      | [v] => AttrVal.scalar v
      | vs => AttrVal.multi vs)

/-- Python exceptions surfaced by the embedded code paths. -/
inductive PyErr where
  | keyError (key : String)
  | typeError
  | indexError
deriving DecidableEq, Repr

/-- A physical quantity: magnitude plus unit string (`pq.Quantity`). -/
structure Quantity where
  value : Rat
  unit : String
deriving DecidableEq, Repr

/-- Section item access that raises `KeyError` when the property is absent. -/
def secItem (sec : Sec) (k : String) : Except PyErr AttrVal :=
  match secGet sec k with
  | some v => .ok v
  | none => .error (.keyError k)

/-- `Reader.Help.read_quantity`: read `qname`, then its companion
`qname + '__unit'`, and build the paired quantity; a missing key raises
`KeyError` (the spec's `MissingUnitError` when the companion is the one
absent), a non-numeric magnitude or non-string unit fails the
`float(...)` / unit coercion. -/
def read_quantity (sec : Sec) (qname : String) : Except PyErr Quantity := do
  let v ← secItem sec qname
  let u ← secItem sec (qname ++ "__unit")
  match v, u with
  | .scalar (.r x), .scalar (.s su) => .ok ⟨x, su⟩
  | .scalar (.i n), .scalar (.s su) => .ok ⟨(n : Rat), su⟩
  | _, _ => .error .typeError

/-!  Identity resolver (`Writer.Help.get_obj_nix_name`). -/

/-- A fixed pure stand-in for Python's `hash` of the payload byte string
(`str(hash(obj.tostring()))` uses only the serialized payload): any concrete
function of the sample list models it, since the code relies only on the hash
being a function of the bytes. -/
def pyHash (xs : List Rat) : Int :=
  xs.foldl (fun h x => h * 1000003 + x.num * 3 + (x.den : Int)) 7

/-- The fields of a neo object that `get_obj_nix_name` inspects: its class
name, its (possibly absent) in-memory `name`, the serialized payload
(`obj.tostring()`), and the serialized time axis (`obj.times.tostring()`). -/
structure LeafRepr where
  kind : ObjType
  neoName : Option String
  allBytes : List Rat
  timesBytes : List Rat
deriving DecidableEq, Repr

/-- `Writer.Help.get_obj_nix_name`: content-hash name for data-leaf kinds
(payload bytes for signal/spike-train kinds, time-axis bytes for
event/epoch), the in-memory name verbatim for structural kinds. -/
def get_obj_nix_name (l : LeafRepr) : Option String :=
  if l.kind ∈ [ObjType.analogsignal, .irregularlysampledsignal, .spiketrain]
    then some (toString (pyHash l.allBytes))
  else if l.kind ∈ [ObjType.event, .epoch]
    then some (toString (pyHash l.timesBytes))
  else l.neoName

/-!  The NIX container state: data arrays, tags, sources are modelled only as
far as the verified code paths (block / segment / analogsignal) exercise
them. -/

/-- The first dimension descriptor of a data array, as used by the
analog-signal writer: a sampled dimension with interval and unit
(`append_sampled_dimension` leaves the unit unset until assigned). -/
structure SampledDim where
  sampling_interval : Rat
  unitOfDim : Option String
deriving DecidableEq, Repr

/-- A NIX data array: name, type tag, payload (written once at creation),
unit, first dimension, and the names of the sources linked to it.  `stamp` is
the creation ticket, making "same container node identity" expressible. -/
structure DataArray where
  name : String
  typ : String
  stamp : Nat
  dtype : String
  data : List Rat
  unitOfArr : Option String
  dim : Option SampledDim
  sources : List String
deriving DecidableEq, Repr

/-- A NIX tag (the representation of a segment): name, type tag, creation
ticket and its reference list (names of referenced data arrays). -/
structure TagNode where
  name : String
  typ : String
  stamp : Nat
  references : List String
deriving DecidableEq, Repr

instance : DecidableEq (String × Sec) := inferInstance

instance : DecidableEq (List (String × Sec)) := inferInstance

instance : DecidableEq (String × List (String × Sec)) := inferInstance

instance : DecidableEq (List (String × List (String × Sec))) := inferInstance

/-- A NIX block together with the metadata subtree rooted at the block's own
metadata section: `ownProps` are the block section's properties, `metaGroups`
its child group sections (key `kind ++ "s"`, e.g. `"analogsignals"`), each a
name-keyed list of object sections. -/
structure Blk where
  name : String
  ownProps : Sec
  metaGroups : List (String × List (String × Sec))
  tags : List TagNode
  data_arrays : List DataArray
  nextStamp : Nat
  cleanCount : Nat
deriving DecidableEq, Repr

/-- A freshly created block (`nix_file.create_block`). -/
def emptyBlk (name : String) : Blk :=
  { name := name, ownProps := [], metaGroups := [], tags := [],
    data_arrays := [], nextStamp := 0, cleanCount := 0 }

/-- Lookup of a data array by name (`nix_block.data_arrays[name]`). -/
def findDA (blk : Blk) (n : String) : Option DataArray :=
  blk.data_arrays.find? (fun a => a.name = n)

/-- Lookup of a tag by name (`nix_block.tags[name]`). -/
def findTag (blk : Blk) (n : String) : Option TagNode :=
  blk.tags.find? (fun t => t.name = n)

/-- In-place update of the data array named `n`. -/
def updateDA (blk : Blk) (n : String) (f : DataArray → DataArray) : Blk :=
  { blk with data_arrays :=
      blk.data_arrays.map (fun a => if a.name = n then f a else a) }

/-- In-place update of the tag named `n`. -/
def updateTag (blk : Blk) (n : String) (f : TagNode → TagNode) : Blk :=
  { blk with tags :=
      blk.tags.map (fun t => if t.name = n then f t else t) }

/-- `nix_block.create_data_array(name, type, dtype, shape)` followed by the
immediate payload `append` the writers perform on creation. -/
def createDA (blk : Blk) (n typ dtype : String) (payload : List Rat) : Blk :=
  { blk with
      data_arrays := blk.data_arrays ++
        [{ name := n, typ := typ, stamp := blk.nextStamp, dtype := dtype,
           data := payload, unitOfArr := none, dim := none, sources := [] }],
      nextStamp := blk.nextStamp + 1 }

/-- `nix_block.create_tag(name, type, [0.0])` (the position argument carries
no information used by this code). -/
def createTag (blk : Blk) (n typ : String) : Blk :=
  { blk with
      tags := blk.tags ++
        [{ name := n, typ := typ, stamp := blk.nextStamp, references := [] }],
      nextStamp := blk.nextStamp + 1 }

/-- The metadata section of the object `name` of kind `group` under the
block's metadata scope, when present. -/
def metaSec (blk : Blk) (group name : String) : Option Sec :=
  (dlookup blk.metaGroups (group ++ "s")).bind fun secs => dlookup secs name

/-- `Writer.Help.get_or_create_section(nix_block.metadata, group, name)`:
find or create the group section `group ++ "s"` under the block's section,
then find or create the object section `name` inside it.  Returns the
(possibly extended) block and the section's current content. -/
def get_or_create_section (blk : Blk) (group name : String) : Blk × Sec :=
  match metaSec blk group name with
  | some sec => (blk, sec)
  | none =>
      let grp := (dlookup blk.metaGroups (group ++ "s")).getD []
      let mg := dinsert blk.metaGroups (group ++ "s") (dinsert grp name [])
      ({ blk with metaGroups := mg }, [])

/-- Store back the content of the object section `name` of kind `group`
(models mutation of the section obtained from `get_or_create_section`). -/
def putSec (blk : Blk) (group name : String) (sec : Sec) : Blk :=
  let grp := (dlookup blk.metaGroups (group ++ "s")).getD []
  let mg := dinsert blk.metaGroups (group ++ "s") (dinsert grp name sec)
  { blk with metaGroups := mg }

/-!  The in-memory neo objects, restricted to the fields the embedded code
paths read: `AnalogSignal`, `Segment`, `Block`. -/

/-- An in-memory `neo.AnalogSignal`: simple attributes, annotation dict,
payload (`tostring()` sample bytes), dtype, unit string
(`units.dimensionality.string`), sampling rate (magnitude and unit string)
and `t_start` quantity. -/
structure NeoAnalogSignal where
  name : Option String
  description : AttrVal
  file_origin : AttrVal
  annotations : List (String × AttrVal)
  signalBytes : List Rat
  dtype : String
  unitsDim : String
  srValue : Rat
  srUnit : String
  tStartValue : Rat
  tStartUnit : String
deriving DecidableEq, Repr

/-- `getattr(signal, a, None)` for the simple attributes of the
`analogsignal` kind (`description`, `file_origin`, `name`); any other
attribute reads as absent. -/
def NeoAnalogSignal.getattr (s : NeoAnalogSignal) : String → AttrVal
  | "description" => s.description
  | "file_origin" => s.file_origin
  | "name" =>
      match s.name with
      | some n => .scalar (.s n)
      | none => .none
  | _ => .none

/-- `Writer.Help.get_obj_nix_name` at an `AnalogSignal` (hash branch): the
stringified hash of the serialized payload. -/
def get_obj_nix_name_sig (s : NeoAnalogSignal) : String :=
  toString (pyHash s.signalBytes)

/-- The metadata dict `write_analogsignal` persists: the extracted
attributes/annotations plus the special `t_start` quantity serialization. -/
def sigMetadata (s : NeoAnalogSignal) : List (String × AttrVal) :=
  let md := extract_metadata s.getattr s.annotations .analogsignal
  let md := dinsert md "t_start" (.scalar (.r s.tStartValue))
  dinsert md "t_start__unit" (.scalar (.s s.tStartUnit))

/-- `nix_array.unit = signal.units.dimensionality.string`. -/
def setArrUnit (u : String) (a : DataArray) : DataArray :=
  { a with unitOfArr := some u }

/-- `if not nix_array.dimensions: nix_array.append_sampled_dimension(rate)`
followed by `nix_array.dimensions[0].unit = rate_unit` (the unit assignment
is unconditional). -/
def setArrDim (v : Rat) (u : String) (a : DataArray) : DataArray :=
  match a.dim with
  | none => { a with dim := some ⟨v, some u⟩ }
  | some d => { a with dim := some { d with unitOfDim := some u } }

/-- `Writer.write_analogsignal`: find the data array by content-derived name
or create it with an immediate payload write (existing payload is never
updated), set the array unit, create the sampled dimension on first write and
set its unit, then persist the metadata dict into the kind/name-scoped
section. -/
def write_analogsignal (blk : Blk) (s : NeoAnalogSignal) : Blk :=
  let obj_name := get_obj_nix_name_sig s
  let blk :=
    match findDA blk obj_name with
    | some _ => blk
    | none => createDA blk obj_name "analogsignal" s.dtype s.signalBytes
  let blk := updateDA blk obj_name (setArrUnit s.unitsDim)
  let blk := updateDA blk obj_name (setArrDim s.srValue s.srUnit)
  let (blk, sec) := get_or_create_section blk "analogsignal" obj_name
  putSec blk "analogsignal" obj_name (write_metadata sec (sigMetadata s))

/-- Substring containment on character lists (Python's `in` on strings). -/
def containsSub (l pat : List Char) : Bool :=
  match l with
  | [] => pat.isEmpty
  | _ :: rest => pat.isPrefixOf l || containsSub rest pat

/-- `'hz' in s.lower()`. -/
def hzIn (u : String) : Bool :=
  containsSub (u.data.map Char.toLower) ['h', 'z']

/-- The unit string of the reciprocal of a quantity with unit `u`, as
`quantities` renders it (`(1 / q).dimensionality.string`). -/
def recipUnit (u : String) : String := "1/" ++ u

/-- `Reader.Help.get_obj_neo_name` at a data array of type `analogsignal`:
`metadata['name']` if present, else `None` (persisted names are strings). -/
def get_obj_neo_name_da (sec : Sec) : Option String :=
  match secGet sec "name" with
  | some (.scalar (.s n)) => some n
  | _ => none

/-- `setattr(signal, key, value)` for the keys `read_attributes` can yield on
an `analogsignal` section. -/
def applySigAttr (s : NeoAnalogSignal) (k : String) (v : AttrVal) :
    NeoAnalogSignal :=
  if k = "description" then { s with description := v }
  else if k = "file_origin" then { s with file_origin := v }
  else if k = "name" then
    match v with
    | .scalar (.s n) => { s with name := some n }
    | _ => s
  else s

/-- `Reader.read_analogsignal`: look the array up by name, rebuild name,
payload, unit, dtype and the sampling quantity from the array (the dimension
unit decides between the `sampling_rate` and `sampling_period` constructor
parameters; the constructor derives the rate from a period), then `t_start`
from the metadata quantity, then the simple attributes, then the
annotations. -/
def read_analogsignal (blk : Blk) (array_id : String) :
    Except PyErr NeoAnalogSignal := do
  let arr ←
    match findDA blk array_id with
    | some a => Except.ok a
    | none => Except.error (.keyError array_id)
  let sec ←
    match metaSec blk "analogsignal" array_id with
    | some s => Except.ok s
    | none => Except.error .typeError
  let u ←
    match arr.unitOfArr with
    | some u => Except.ok u
    | none => Except.error .typeError
  let d ←
    match arr.dim with
    | some d => Except.ok d
    | none => Except.error .indexError
  let du ←
    match d.unitOfDim with
    | some x => Except.ok x
    | none => Except.error .typeError
  let base : NeoAnalogSignal :=
    { name := get_obj_neo_name_da sec
      description := .none
      file_origin := .none
      annotations := []
      signalBytes := arr.data
      dtype := arr.dtype
      unitsDim := u
      srValue := if hzIn du then d.sampling_interval else 1 / d.sampling_interval
      srUnit := if hzIn du then du else recipUnit du
      tStartValue := 0
      tStartUnit := "" }
  let ts ← read_quantity sec "t_start"
  let base := { base with tStartValue := ts.value, tStartUnit := ts.unit }
  let base := (read_attributes sec .analogsignal).foldl
    (fun r kv => applySigAttr r kv.1 kv.2) base
  return { base with annotations := read_annotations sec .analogsignal }

/-- An in-memory `neo.Segment`, restricted to the child collection the
embedding follows (`analogsignals`; the other four collections are handled by
the identical `write_many` calls). -/
structure NeoSegment where
  name : String
  description : AttrVal
  file_origin : AttrVal
  file_datetime : AttrVal
  rec_datetime : AttrVal
  index : AttrVal
  annotations : List (String × AttrVal)
  analogsignals : List NeoAnalogSignal
deriving DecidableEq, Repr

/-- `getattr(segment, a, None)` for the simple attributes of the `segment`
kind. -/
def NeoSegment.getattr (s : NeoSegment) : String → AttrVal
  | "description" => s.description
  | "file_origin" => s.file_origin
  | "file_datetime" => s.file_datetime
  | "rec_datetime" => s.rec_datetime
  | "index" => s.index
  | _ => .none

/-- An in-memory `neo.Block`, restricted to the `segments` collection (the
`recordingchannelgroups` pass uses source links, outside this fragment). -/
structure NeoBlock where
  name : String
  description : AttrVal
  file_origin : AttrVal
  file_datetime : AttrVal
  rec_datetime : AttrVal
  index : AttrVal
  annotations : List (String × AttrVal)
  segments : List NeoSegment
deriving DecidableEq, Repr

/-- `getattr(block, a, None)` for the simple attributes of the `block`
kind. -/
def NeoBlock.getattr (b : NeoBlock) : String → AttrVal
  | "description" => b.description
  | "file_origin" => b.file_origin
  | "file_datetime" => b.file_datetime
  | "rec_datetime" => b.rec_datetime
  | "index" => b.index
  | _ => .none

/-- The parent handed to `write_many`: the block itself (for
segments/channel groups) or a tag (for a segment's data children); the
source-parent branches live outside the embedded fragment. -/
inductive Parent where
  | block
  | tag (name : String)
deriving DecidableEq, Repr

/-- `Writer.Help.clean`: delete every data array that no tag references and
that has no source link.  (The source iterates the pre-collected name list
and re-checks each array; deleting one array changes neither the tags'
reference lists nor another array's source list, so the loop is the filter
below.)  `cleanCount` counts the sweeps for the once-per-write analysis. -/
def clean (blk : Blk) : Blk :=
  let keep := fun (a : DataArray) =>
    blk.tags.any (fun t => t.references.contains a.name) || !a.sources.isEmpty
  { blk with data_arrays := blk.data_arrays.filter keep,
             cleanCount := blk.cleanCount + 1 }

/-- `Writer.Help.write_many` instantiated at a collection of analog signals
(`obj_type = 'analogsignal'`, container `nix_block.data_arrays`): on an
empty collection return immediately; otherwise diff the currently linked
arrays of this type against the content-derived names of the desired
signals, write every desired signal, then apply the linkage change — for a
tag parent edit its reference list, otherwise (the exclusive-containment
`else` branch) delete the removed container nodes.  (`to_append` is a Python
set: order-free, duplicate-free.) -/
def write_many_signals (blk : Blk) (parent : Parent)
    (neo_objs : List NeoAnalogSignal) : Blk :=
  match neo_objs with
  | [] => blk
  | _ :: _ =>
      let refs : List String :=
        match parent with
        | .tag t =>
            match findTag blk t with
            | some tg => tg.references
            | none => []
        | .block => []
      let ofType := blk.data_arrays.filter (fun a => a.typ = "analogsignal")
      let existing : List DataArray :=
        match parent with
        | .tag _ => ofType.filter (fun a => refs.contains a.name)
        | .block => ofType
      let existingNames := existing.map (·.name)
      let desired := neo_objs.map get_obj_nix_name_sig
      let to_remove := existingNames.filter (fun n => n ∉ desired)
      let to_append := (desired.filter (fun n => n ∉ existingNames)).dedup
      let blk := neo_objs.foldl write_analogsignal blk
      match parent with
      | .tag t =>
          updateTag blk t (fun tg =>
            { tg with references :=
                tg.references.filter (fun n => n ∉ to_remove) ++ to_append })
      | .block =>
          { blk with data_arrays :=
              blk.data_arrays.filter (fun a => a.name ∉ to_remove) }

/-- `Writer.write_segment`: find or create the segment's tag, persist its
metadata into the `segments`-scoped section, reconcile the child collections
when `recursive`, and finish with the orphan sweep (run unconditionally). -/
def write_segment (blk : Blk) (seg : NeoSegment) (recursive : Bool) : Blk :=
  let blk :=
    match findTag blk seg.name with
    | some _ => blk
    | none => createTag blk seg.name "segment"
  let (blk, sec) := get_or_create_section blk "segment" seg.name
  let md := extract_metadata seg.getattr seg.annotations .segment
  let blk := putSec blk "segment" seg.name (write_metadata sec md)
  let blk :=
    if recursive then write_many_signals blk (.tag seg.name) seg.analogsignals
    else blk
  clean blk

/-- `Writer.Help.write_many` instantiated at a collection of segments
(`obj_type = 'segment'`, container `nix_block.tags`): same diff, the write
loop recurses into `write_segment`, and for the block parent the `else`
branch deletes the removed tags outright. -/
def write_many_segments (blk : Blk) (parent : Parent)
    (neo_objs : List NeoSegment) : Blk :=
  match neo_objs with
  | [] => blk
  | _ :: _ =>
      let refs : List String :=
        match parent with
        | .tag t =>
            match findTag blk t with
            | some tg => tg.references
            | none => []
        | .block => []
      let ofType := blk.tags.filter (fun t => t.typ = "segment")
      let existing : List TagNode :=
        match parent with
        | .tag _ => ofType.filter (fun t => refs.contains t.name)
        | .block => ofType
      let existingNames := existing.map (·.name)
      let desired := neo_objs.map (·.name)
      let to_remove := existingNames.filter (fun n => n ∉ desired)
      let to_append := (desired.filter (fun n => n ∉ existingNames)).dedup
      let blk := neo_objs.foldl (fun b seg => write_segment b seg true) blk
      match parent with
      | .tag t =>
          updateTag blk t (fun tg =>
            { tg with references :=
                tg.references.filter (fun n => n ∉ to_remove) ++ to_append })
      | .block =>
          { blk with tags := blk.tags.filter (fun t => t.name ∉ to_remove) }

/-- The collections `write_many` is invoked on in the embedded fragment; the
source dispatches on the runtime class of the first element. -/
inductive NeoChildren where
  | sigs (xs : List NeoAnalogSignal)
  | segs (xs : List NeoSegment)
deriving DecidableEq, Repr

/-- `Writer.Help.write_many`, dispatching by child kind as the source does
through `get_classname(neo_objs[0])`. -/
def write_many (blk : Blk) (parent : Parent) : NeoChildren → Blk
  | .sigs xs => write_many_signals blk parent xs
  | .segs xs => write_many_segments blk parent xs

/-- The NIX file: its top-level blocks.  A block's metadata section is stored
inside the block model (`Blk.ownProps` / `Blk.metaGroups`). -/
structure NixFile where
  blocks : List Blk
deriving DecidableEq, Repr

/-- Lookup of a block by name (`nix_file.blocks[name]`). -/
def findBlk (f : NixFile) (n : String) : Option Blk :=
  f.blocks.find? (fun b => b.name = n)

/-- In-place update of the block named `n`. -/
def updateBlk (f : NixFile) (n : String) (g : Blk → Blk) : NixFile :=
  { blocks := f.blocks.map (fun b => if b.name = n then g b else b) }

/-- The metadata step of `write_block` on the found block:
`nix_block.metadata = get_or_create_section(nix_file, 'block', block.name)`
(the file root is not a `Section`, so the block's own section is the target)
followed by `write_metadata` on it. -/
def wbMeta (b : NeoBlock) (blk : Blk) : Blk :=
  { blk with ownProps :=
      write_metadata blk.ownProps (extract_metadata b.getattr b.annotations .block) }

/-- The recursive step of `write_block`: reconcile the segment collection
(the channel-group pass uses source links, outside this fragment). -/
def wbSegs (b : NeoBlock) (blk : Blk) : Blk :=
  write_many blk .block (.segs b.segments)

/-- `Writer.write_block`: find or create the block, persist its metadata
into the file-rooted section, and when `recursive` reconcile the child
collections.  Note that `write_block` itself never runs the orphan sweep. -/
def write_block (f : NixFile) (b : NeoBlock) (recursive : Bool) : NixFile :=
  let f :=
    match findBlk f b.name with
    | some _ => f
    | none => { blocks := f.blocks ++ [emptyBlk b.name] }
  let f := updateBlk f b.name (wbMeta b)
  if recursive then updateBlk f b.name (wbSegs b) else f

/-!  File-handle bookkeeping: `FileHandler`, `ProxyList`, `NixIO`. -/

/-- The mode `FileHandler.open` picks (`nix.FileMode`). -/
inductive FMode where
  | readOnly | readWrite | overwrite
deriving DecidableEq, Repr

/-- `FileHandler`: filename, the stored `readonly` flag, and the NIX handle —
`none` before the first `open`, `some true` while open, `some false` after
`close`. -/
structure FileHandler where
  filename : String
  readonly : Bool
  handle : Option Bool
deriving DecidableEq, Repr

/-- `FileHandler.__init__(filename, readonly=False)`. -/
def FileHandler.init (filename : String) (readonly : Bool) : FileHandler :=
  { filename := filename, readonly := readonly, handle := none }

/-- The file mode `FileHandler.open` selects from the file's existence and
the stored `readonly` flag. -/
def FileHandler.openMode (fh : FileHandler) (fileExists : Bool) : FMode :=
  if fileExists then
    if fh.readonly then .readOnly else .readWrite
  else .overwrite

/-- `FileHandler.open`: (re)open the handle. -/
def FileHandler.openFile (fh : FileHandler) : FileHandler :=
  { fh with handle := some true }

/-- `FileHandler.close`: close the handle. -/
def FileHandler.closeFile (fh : FileHandler) : FileHandler :=
  { fh with handle := some false }

/-- Whether the handle is currently open (`fh.handle is not None and
fh.handle.is_open()`). -/
def FileHandler.isOpenH (fh : FileHandler) : Bool := fh.handle = some true

/-- The observable steps a `ProxyList._data` access performs on the backing
store. -/
inductive PEvent where
  | opened | fetched | closedEv
deriving DecidableEq, Repr

/-- The outcome of a `ProxyList._data` access: the value produced, the file
handler afterwards, the cache afterwards, and the handle operations
performed, in order. -/
structure AccessResult (α : Type) where
  value : α
  fh : FileHandler
  cache : Option α
  events : List PEvent
deriving Repr

/-- `ProxyList._data`: if the cache is filled, return it without touching the
handle; otherwise, when the handle is absent or not open, open it and
remember to close it afterward, invoke the fetch function, and close the
handle again only in that case.  `fetchVal` stands for the fetch function's
result on the (open) handle. -/
def proxy_data {α : Type} (fh : FileHandler) (cache : Option α)
    (fetchVal : α) : AccessResult α :=
  match cache with
  | some v => { value := v, fh := fh, cache := some v, events := [] }
  | none =>
      if fh.isOpenH then
        { value := fetchVal, fh := fh, cache := some fetchVal,
          events := [.fetched] }
      else
        { value := fetchVal, fh := fh.openFile.closeFile,
          cache := some fetchVal, events := [.opened, .fetched, .closedEv] }

/-- `NixIO`: the stored file handler and the public `readonly` flag. -/
structure NixIo where
  f : FileHandler
  readonly : Bool
deriving DecidableEq, Repr

/-- `NixIO.__init__(filename, readonly)`: builds `FileHandler(filename)` —
with the handler's `readonly` left at its `False` default, the public flag
is stored on the instance only. -/
def NixIo.init (filename : String) (readonly : Bool) : NixIo :=
  { f := FileHandler.init filename false, readonly := readonly }

/-!  Concrete fixtures for the witnesses and counterexamples. -/

/-- An analog signal with the given payload and in-memory name, no
annotations, and fixed `mV` / `1000 Hz` / `0 s` characteristics. -/
def mkSig (bytes : List Rat) (nm : Option String) : NeoAnalogSignal :=
  { name := nm, description := .none, file_origin := .none, annotations := [],
    signalBytes := bytes, dtype := "float64", unitsDim := "mV",
    srValue := 1000, srUnit := "Hz", tStartValue := 0, tStartUnit := "s" }

/-- Payload-distinct sample signals. -/
def sigA : NeoAnalogSignal := mkSig [1] (some "A")

/-- Payload-distinct sample signals. -/
def sigB : NeoAnalogSignal := mkSig [2] (some "B")

/-- Payload-distinct sample signals. -/
def sigC : NeoAnalogSignal := mkSig [3] (some "C")

/-- Payload-distinct sample signals. -/
def sigD : NeoAnalogSignal := mkSig [4] (some "D")

/-- A signal carrying one annotation and a description, used for the
round-trip scenario. -/
def sigAnn : NeoAnalogSignal :=
  { name := some "sig", description := .scalar (.s "d"), file_origin := .none,
    annotations := [("foo", .scalar (.s "bar"))],
    signalBytes := [5, 6], dtype := "float64", unitsDim := "mV",
    srValue := 1000, srUnit := "Hz", tStartValue := 2, tStartUnit := "s" }

/-- A block whose tag `seg` is linked to one existing analog-signal array
`x`: the state used to probe reconciliation against an empty desired
collection. -/
def blkOneLinked : Blk :=
  { name := "b", ownProps := [], metaGroups := [],
    tags := [{ name := "seg", typ := "segment", stamp := 0, references := ["x"] }],
    data_arrays := [{ name := "x", typ := "analogsignal", stamp := 1,
                      dtype := "f", data := [1], unitOfArr := some "mV",
                      dim := none, sources := [] }],
    nextStamp := 2, cleanCount := 0 }

/-- An empty block holding one empty segment tag `seg`. -/
def blkTagOnly : Blk :=
  { name := "b", ownProps := [], metaGroups := [],
    tags := [{ name := "seg", typ := "segment", stamp := 0, references := [] }],
    data_arrays := [], nextStamp := 1, cleanCount := 0 }

/-- A childless segment with the given name. -/
def mkSeg (nm : String) : NeoSegment :=
  { name := nm, description := .none, file_origin := .none,
    file_datetime := .none, rec_datetime := .none, index := .none,
    annotations := [], analogsignals := [] }

/-- A block with two (empty) segments. -/
def nbTwoSegs : NeoBlock :=
  { name := "blk", description := .none, file_origin := .none,
    file_datetime := .none, rec_datetime := .none, index := .none,
    annotations := [], segments := [mkSeg "s1", mkSeg "s2"] }

/-- The clean-sweep count of the block named `n` in the file (`0` when the
block does not exist). -/
def blkCleanCount (f : NixFile) (n : String) : Nat :=
  match findBlk f n with
  | some b => b.cleanCount
  | none => 0

/-- The reference list of the tag named `t` (empty when the tag is absent). -/
def tagRefs (blk : Blk) (t : String) : List String :=
  match findTag blk t with
  | some tg => tg.references
  | none => []

/-- The identities of the children of kind `ty` currently linked into the
reference list `refs`: the `existing` set of `write_many`. -/
def linkedOfType (blk : Blk) (refs : List String) (ty : String) : List String :=
  ((blk.data_arrays.filter (fun a => a.typ = ty)).filter
    (fun a => refs.contains a.name)).map (fun a => a.name)

/-- Sampled-time dimension matching a signal's sampling rate. -/
def dimFor (s : NeoAnalogSignal) : SampledDim :=
  { sampling_interval := s.srValue, unitOfDim := some s.srUnit }

/-- A persisted data array exactly as `write_analogsignal` leaves it. -/
def arrFor (s : NeoAnalogSignal) : DataArray :=
  { name := get_obj_nix_name_sig s, typ := "analogsignal", stamp := 0,
    dtype := s.dtype, data := s.signalBytes, unitOfArr := some s.unitsDim,
    dim := some (dimFor s), sources := [] }

/-- The metadata section `write_analogsignal` persists for a signal. -/
def secFor (s : NeoAnalogSignal) : Sec := write_metadata [] (sigMetadata s)

/-- The tag of a persisted segment linking signals A, B and C. -/
def tagC3 : TagNode :=
  { name := "seg", typ := "segment", stamp := 9,
    references := [get_obj_nix_name_sig sigA, get_obj_nix_name_sig sigB,
      get_obj_nix_name_sig sigC] }

/-- A block state with signals A, B and C persisted and linked from one tag. -/
def blkC3 : Blk :=
  { name := "b", ownProps := [],
    metaGroups := [("analogsignals",
      [(get_obj_nix_name_sig sigA, secFor sigA),
       (get_obj_nix_name_sig sigB, secFor sigB),
       (get_obj_nix_name_sig sigC, secFor sigC)])],
    tags := [tagC3],
    data_arrays := [arrFor sigA, arrFor sigB, arrFor sigC],
    nextStamp := 3, cleanCount := 0 }

/-- Equality on `Except` values is decidable when it is on both sides. -/
instance {ε α : Type} [DecidableEq ε] [DecidableEq α] :
    DecidableEq (Except ε α) := fun x y =>
  match x, y with
  | .error e, .error f =>
      if h : e = f then .isTrue (by rw [h])
      else .isFalse (fun c => h (by cases c; rfl))
  | .ok a, .ok b =>
      if h : a = b then .isTrue (by rw [h])
      else .isFalse (fun c => h (by cases c; rfl))
  | .error _, .ok _ => .isFalse (fun c => by cases c)
  | .ok _, .error _ => .isFalse (fun c => by cases c)

/-!  Dictionary and section lemmas. -/

theorem dlookup_nil {α : Type} (k : String) : dlookup ([] : List (String × α)) k = none := rfl

theorem dlookup_cons {α : Type} (kv : String × α) (d : List (String × α)) (k : String) :
    dlookup (kv :: d) k = if kv.1 = k then some kv.2 else dlookup d k := by
  by_cases h : kv.1 = k <;> simp [dlookup, List.find?_cons, h]

theorem dlookup_dinsert_self {α : Type} (d : List (String × α)) (k : String) (v : α) :
    dlookup (dinsert d k v) k = some v := by
  induction d with
  | nil => simp [dinsert, dlookup]
  | cons kv rest ih =>
      by_cases h : kv.1 = k
      · simp [dinsert, h, dlookup_cons]
      · simp [dinsert, h, dlookup_cons, ih]

theorem dlookup_dinsert_ne {α : Type} (d : List (String × α)) (k k' : String) (v : α)
    (h : k' ≠ k) : dlookup (dinsert d k v) k' = dlookup d k' := by
  have hne : ¬(k = k') := fun he => h he.symm
  induction d with
  | nil => simp [dinsert, dlookup_cons, dlookup_nil, hne]
  | cons kv rest ih =>
      by_cases hk : kv.1 = k
      · subst hk
        simp [dinsert, dlookup_cons, hne]
      · simp [dinsert, hk, dlookup_cons, ih]

theorem dinsert_lookup_self {α : Type} (d : List (String × α)) (k : String) (v : α)
    (h : dlookup d k = some v) : dinsert d k v = d := by
  induction d with
  | nil => simp [dlookup] at h
  | cons kv rest ih =>
      obtain ⟨k1, v1⟩ := kv
      rw [dlookup_cons] at h
      by_cases hk : k1 = k
      · simp [hk] at h
        simp [dinsert, hk, ← h]
      · simp [hk] at h
        simp [dinsert, hk, ih h]

theorem dinsert_absent {α : Type} (d : List (String × α)) (k : String) (v : α)
    (h : dlookup d k = none) : dinsert d k v = d ++ [(k, v)] := by
  induction d with
  | nil => simp [dinsert]
  | cons kv rest ih =>
      rw [dlookup_cons] at h
      by_cases hk : kv.1 = k
      · simp [hk] at h
      · simp [hk] at h
        simp [dinsert, hk, ih h]

theorem dlookup_append_left {α : Type} (d1 d2 : List (String × α)) (k : String) (v : α)
    (h : dlookup d1 k = some v) : dlookup (d1 ++ d2) k = some v := by
  induction d1 with
  | nil => simp [dlookup] at h
  | cons kv rest ih =>
      rw [dlookup_cons] at h
      by_cases hk : kv.1 = k
      · simp [hk] at h
        simp [dlookup_cons, hk, h]
      · simp [hk] at h
        simp [dlookup_cons, hk, ih h]

theorem dlookup_append_right {α : Type} (d1 d2 : List (String × α)) (k : String)
    (h : dlookup d1 k = none) : dlookup (d1 ++ d2) k = dlookup d2 k := by
  induction d1 with
  | nil => simp
  | cons kv rest ih =>
      rw [dlookup_cons] at h
      by_cases hk : kv.1 = k
      · simp [hk] at h
      · simp [hk] at h
        simp [dlookup_cons, hk, ih h]

theorem dlookup_eq_none_iff {α : Type} (d : List (String × α)) (k : String) :
    dlookup d k = none ↔ ∀ kv ∈ d, kv.1 ≠ k := by
  induction d with
  | nil => simp [dlookup]
  | cons kv rest ih =>
      rw [dlookup_cons]
      by_cases hk : kv.1 = k <;> simp [hk, ih]

theorem mem_dinsert {α : Type} (d : List (String × α)) (k : String) (v : α)
    (kv : String × α) (h : kv ∈ dinsert d k v) : kv ∈ d ∨ kv = (k, v) := by
  induction d with
  | nil =>
      simp [dinsert] at h
      simp [h]
  | cons kv2 rest ih =>
      by_cases hk : kv2.1 = k
      · simp [dinsert, hk] at h
        rcases h with h | h
        · right; simp [h]
        · left; simp [h]
      · simp [dinsert, hk] at h
        rcases h with h | h
        · left; simp [h]
        · rcases ih h with h2 | h2
          · left; simp [h2]
          · right; exact h2

/-!  `setProp` and `write_metadata` lemmas.  The folds are analysed through
`wmStep`, the loop body of `write_metadata`. -/

theorem write_metadata_eq_foldl (sec : Sec) (d : List (String × AttrVal)) :
    write_metadata sec d =
      (d.filter (fun kv => kv.2 ≠ AttrVal.none)).foldl wmStep sec := rfl

theorem setProp_noop (sec : Sec) (k : String) (vals : List NixValue)
    (h : dlookup sec k = some vals) : setProp sec k vals = sec := by
  simp [setProp, h]

theorem setProp_lookup_ne (sec : Sec) (k k' : String) (vals : List NixValue)
    (h : k' ≠ k) : dlookup (setProp sec k vals) k' = dlookup sec k' := by
  have hne : ¬(k = k') := fun he => h he.symm
  unfold setProp
  match hl : dlookup sec k with
  | some old =>
      by_cases he : old = vals
      · simp [he]
      · simp [he, dlookup_dinsert_ne _ _ _ _ h]
  | none =>
      rcases hl2 : dlookup sec k' with _ | v
      · simp [dlookup_append_right _ _ _ hl2, dlookup_cons, hne, dlookup_nil]
      · simp [dlookup_append_left _ _ _ _ hl2, hl2]

theorem setProp_lookup_self (sec : Sec) (k : String) (vals : List NixValue) :
    dlookup (setProp sec k vals) k = some vals := by
  unfold setProp
  match hl : dlookup sec k with
  | some old =>
      by_cases he : old = vals
      · simp only [he, if_true, eq_self_iff_true]
        rw [hl, he]
      · simp [he, dlookup_dinsert_self]
  | none =>
      simp [dlookup_append_right _ _ _ hl, dlookup_cons]

theorem foldl_wmStep_noop (l : List (String × AttrVal)) (sec : Sec)
    (h : ∀ kv ∈ l, dlookup sec kv.1 = some (make_nix_values kv.2)) :
    l.foldl wmStep sec = sec := by
  induction l with
  | nil => rfl
  | cons kv rest ih =>
      rw [List.foldl_cons]
      rw [show wmStep sec kv = sec from setProp_noop _ _ _ (h kv (List.mem_cons_self _ _))]
      exact ih (fun kv2 h2 => h kv2 (List.mem_cons_of_mem _ h2))

theorem foldl_wmStep_lookup_other (l : List (String × AttrVal)) (sec : Sec) (k : String)
    (h : ∀ kv ∈ l, kv.1 ≠ k) :
    dlookup (l.foldl wmStep sec) k = dlookup sec k := by
  induction l generalizing sec with
  | nil => rfl
  | cons kv rest ih =>
      rw [List.foldl_cons, ih (wmStep sec kv) (fun kv2 h2 => h kv2 (List.mem_cons_of_mem _ h2))]
      exact setProp_lookup_ne _ _ _ _ (Ne.symm (h kv (List.mem_cons_self _ _)))

theorem write_metadata_noop (sec : Sec) (d : List (String × AttrVal))
    (h : ∀ kv ∈ d, kv.2 ≠ AttrVal.none →
      dlookup sec kv.1 = some (make_nix_values kv.2)) :
    write_metadata sec d = sec := by
  rw [write_metadata_eq_foldl]
  refine foldl_wmStep_noop _ _ (fun kv h2 => ?_)
  rw [List.mem_filter] at h2
  exact h kv h2.1 (by simpa using h2.2)

theorem write_metadata_lookup_other (sec : Sec) (d : List (String × AttrVal)) (k : String)
    (h : ∀ kv ∈ d, kv.1 = k → kv.2 = AttrVal.none) :
    dlookup (write_metadata sec d) k = dlookup sec k := by
  rw [write_metadata_eq_foldl]
  refine foldl_wmStep_lookup_other _ _ _ (fun kv h2 => ?_)
  rw [List.mem_filter] at h2
  intro he
  exact (by simpa using h2.2 : kv.2 ≠ AttrVal.none) (h kv h2.1 he)

theorem foldl_wmStep_lookup_mem (l : List (String × AttrVal)) (sec : Sec)
    (k : String) (v : AttrVal)
    (hnodup : (l.map Prod.fst).Nodup) (hmem : (k, v) ∈ l)
    (hsec : dlookup sec k = some (make_nix_values v)) :
    dlookup (l.foldl wmStep sec) k = some (make_nix_values v) := by
  induction l generalizing sec with
  | nil => simp at hmem
  | cons kv rest ih =>
      simp only [List.map_cons, List.nodup_cons] at hnodup
      rw [List.foldl_cons]
      rcases List.mem_cons.mp hmem with he | hm
      · have hkv1 : kv.1 = k := by rw [← he]
        have hkv2 : kv.2 = v := by rw [← he]
        rw [show wmStep sec kv = sec by
          unfold wmStep; rw [hkv1, hkv2]; exact setProp_noop _ _ _ hsec]
        rw [foldl_wmStep_lookup_other rest sec k ?hothers]
        · exact hsec
        case hothers =>
          intro kv2 h2 he2
          exact (hkv1 ▸ hnodup.1) (he2 ▸ List.mem_map_of_mem Prod.fst h2)
      · have hkne : kv.1 ≠ k := by
          intro he2
          have : k ∈ rest.map Prod.fst := by
            have := List.mem_map_of_mem Prod.fst hm
            simpa using this
          exact (he2 ▸ hnodup.1) this
        refine ih (wmStep sec kv) hnodup.2 hm ?_
        unfold wmStep
        rw [setProp_lookup_ne _ _ _ _ (fun he2 => hkne he2.symm), hsec]

theorem write_metadata_lookup_mem (sec : Sec) (d : List (String × AttrVal))
    (k : String) (v : AttrVal)
    (hnodup : (d.map Prod.fst).Nodup) (hmem : (k, v) ∈ d) (hv : v ≠ AttrVal.none)
    (hsec : dlookup sec k = some (make_nix_values v)) :
    dlookup (write_metadata sec d) k = some (make_nix_values v) := by
  rw [write_metadata_eq_foldl]
  refine foldl_wmStep_lookup_mem _ _ _ _ ?_ ?_ hsec
  · exact List.Nodup.sublist (List.Sublist.map Prod.fst (List.filter_sublist d)) hnodup
  · rw [List.mem_filter]
    exact ⟨hmem, by simpa using hv⟩

/-- C6: writing an attribute dict through the codec is idempotent — any
attribute whose target property in the section already holds the encoded
value is left unchanged by `write_metadata` (no mutation of the stored
property). -/
theorem c6_write_idempotent (sec : Sec) (d : List (String × AttrVal))
    (k : String) (v : AttrVal)
    (hnodup : (d.map Prod.fst).Nodup) (hmem : (k, v) ∈ d) (hv : v ≠ AttrVal.none)
    (hsec : dlookup sec k = some (make_nix_values v)) :
    dlookup (write_metadata sec d) k = some (make_nix_values v) :=
  write_metadata_lookup_mem sec d k v hnodup hmem hv hsec

/-- C6 witness: a section already holding `a = 1`; writing `a = 1` again
leaves the stored property with the same value. -/
theorem c6_write_idempotent_witness :
    dlookup (write_metadata [("a", [NixValue.i 1])] [("a", AttrVal.scalar (.i 1))]) "a"
      = some (make_nix_values (AttrVal.scalar (.i 1))) :=
  c6_write_idempotent [("a", [NixValue.i 1])] [("a", AttrVal.scalar (.i 1))]
    "a" (AttrVal.scalar (.i 1)) (by decide) (by decide) (by decide) (by decide)

/-- C7: reading a quantity attribute that is present while its companion
`<name>__unit` property is absent raises the key lookup error on the
companion (the spec's `MissingUnitError`). -/
theorem c7_missing_unit (sec : Sec) (q : String) (v : List NixValue)
    (h1 : dlookup sec q = some v)
    (h2 : dlookup sec (q ++ "__unit") = none) :
    read_quantity sec q = .error (.keyError (q ++ "__unit")) := by
  simp [read_quantity, secItem, secGet, h1, h2, bind, Except.bind]

/-- C7 witness: a section holding `t_start` without `t_start__unit`. -/
theorem c7_missing_unit_witness :
    read_quantity [("t_start", [NixValue.r 0])] "t_start"
      = .error (.keyError ("t_start" ++ "__unit")) :=
  c7_missing_unit [("t_start", [NixValue.r 0])] "t_start" [NixValue.r 0]
    (by decide) (by decide)

/-- C8: a first access of `ProxyList._data` (empty cache) fills the cache
with the fetched value; when the handle is open it is used and left open
untouched, when it is absent or closed the access opens it, fetches, and
closes it again — the handle's open/closed state is restored either way. -/
theorem c8_proxy_first_access {α : Type} (fh : FileHandler) (fv : α) :
    (proxy_data fh none fv).cache = some fv ∧
    (proxy_data fh none fv).value = fv ∧
    (proxy_data fh none fv).fh.isOpenH = fh.isOpenH ∧
    (proxy_data fh none fv).events =
      (if fh.isOpenH then [PEvent.fetched]
       else [PEvent.opened, PEvent.fetched, PEvent.closedEv]) ∧
    (proxy_data fh none fv).fh =
      (if fh.isOpenH then fh else fh.openFile.closeFile) := by
  by_cases h : fh.isOpenH = true <;>
    simp [proxy_data, h, FileHandler.isOpenH, FileHandler.openFile,
      FileHandler.closeFile] at * <;> simp [h]

/-- C9: `NixIO.__init__` stores the `readonly` argument on the instance but
builds its `FileHandler` without it, so the handler keeps its `False`
default and an existing file is opened in read-write mode regardless of the
public flag. -/
theorem c9_readonly_unused (filename : String) (ro : Bool) :
    (NixIo.init filename ro).readonly = ro ∧
    (NixIo.init filename ro).f.readonly = false ∧
    (NixIo.init filename ro).f.filename = filename ∧
    (NixIo.init filename ro).f.openMode true = FMode.readWrite := by
  simp [NixIo.init, FileHandler.init, FileHandler.openMode]

/-!  Frame lemmas for the write functions. -/

theorem putSec_tags (b : Blk) (g n : String) (s : Sec) :
    (putSec b g n s).tags = b.tags := rfl

theorem updateDA_tags (b : Blk) (n : String) (f : DataArray → DataArray) :
    (updateDA b n f).tags = b.tags := rfl

theorem createDA_tags (b : Blk) (n t d : String) (p : List Rat) :
    (createDA b n t d p).tags = b.tags := rfl

theorem gocs_fst_tags (b : Blk) (g n : String) :
    (get_or_create_section b g n).1.tags = b.tags := by
  unfold get_or_create_section
  split <;> rfl

theorem putSec_cleanCount (b : Blk) (g n : String) (s : Sec) :
    (putSec b g n s).cleanCount = b.cleanCount := rfl

theorem updateDA_cleanCount (b : Blk) (n : String) (f : DataArray → DataArray) :
    (updateDA b n f).cleanCount = b.cleanCount := rfl

theorem createDA_cleanCount (b : Blk) (n t d : String) (p : List Rat) :
    (createDA b n t d p).cleanCount = b.cleanCount := rfl

theorem gocs_fst_cleanCount (b : Blk) (g n : String) :
    (get_or_create_section b g n).1.cleanCount = b.cleanCount := by
  unfold get_or_create_section
  split <;> rfl

theorem write_analogsignal_tags (blk : Blk) (s : NeoAnalogSignal) :
    (write_analogsignal blk s).tags = blk.tags := by
  simp only [write_analogsignal]
  split <;> simp only [putSec_tags, gocs_fst_tags, updateDA_tags, createDA_tags]

theorem write_analogsignal_cleanCount (blk : Blk) (s : NeoAnalogSignal) :
    (write_analogsignal blk s).cleanCount = blk.cleanCount := by
  simp only [write_analogsignal]
  split <;> simp only [putSec_cleanCount, gocs_fst_cleanCount, updateDA_cleanCount,
    createDA_cleanCount]

theorem foldl_write_analogsignal_tags (l : List NeoAnalogSignal) (blk : Blk) :
    (l.foldl write_analogsignal blk).tags = blk.tags := by
  induction l generalizing blk with
  | nil => rfl
  | cons x xs ih => rw [List.foldl_cons, ih, write_analogsignal_tags blk x]

theorem find_map_update_tag (l : List TagNode) (t : String) (f : TagNode → TagNode)
    (hf : ∀ tg, (f tg).name = tg.name) :
    (l.map (fun tg => if tg.name = t then f tg else tg)).find?
        (fun tg => tg.name = t) =
      (l.find? (fun tg => tg.name = t)).map f := by
  induction l with
  | nil => rfl
  | cons tg rest ih =>
      by_cases h : tg.name = t
      · simp [List.find?_cons, h, hf tg]
      · simp [List.find?_cons, h, ih]

theorem findTag_updateTag (blk : Blk) (t : String) (f : TagNode → TagNode)
    (hf : ∀ tg, (f tg).name = tg.name) :
    findTag (updateTag blk t f) t = (findTag blk t).map f := by
  unfold findTag updateTag
  exact find_map_update_tag blk.tags t f hf

theorem findTag_update_refs (blk : Blk) (t : String) (g : TagNode → List String) :
    findTag (updateTag blk t (fun tg => { tg with references := g tg })) t =
      (findTag blk t).map (fun tg => { tg with references := g tg }) :=
  findTag_updateTag _ _ _ (fun _ => rfl)

theorem findTag_eq_of_tags (b1 b2 : Blk) (n : String) (h : b1.tags = b2.tags) :
    findTag b1 n = findTag b2 n := by
  unfold findTag
  rw [h]

/-- C1 counterexample: a tag with one existing linked `analogsignal` child
`x`, reconciled against the empty desired collection — `existing - desired`
is `{x}`, so the claim requires `x` to be unlinked, but `write_many` returns
without touching the state. -/
theorem c1_counterexample :
    write_many blkOneLinked (.tag "seg") (.sigs []) = blkOneLinked ∧
    "x" ∈ tagRefs blkOneLinked "seg" ∧
    "x" ∈ linkedOfType blkOneLinked (tagRefs blkOneLinked "seg") "analogsignal" := by
  refine ⟨rfl, ?_, ?_⟩ <;> decide

/-- C1 (amended): for a reference-list parent and a nonempty desired
collection, reconciliation unlinks exactly the existing linked children of
the kind whose identity is not desired and links exactly the desired
identities not already linked; an empty desired collection is a no-op
(nothing is unlinked or removed). -/
theorem c1_reconciler_diff (blk : Blk) (t : String) (tg : TagNode)
    (objs : List NeoAnalogSignal)
    (htag : findTag blk t = some tg) (hne : objs ≠ []) :
    (∀ n : String,
      n ∈ tagRefs (write_many blk (.tag t) (.sigs objs)) t ↔
        ((n ∈ tg.references ∧
            ¬(n ∈ linkedOfType blk tg.references "analogsignal" ∧
               n ∉ objs.map get_obj_nix_name_sig)) ∨
          (n ∈ objs.map get_obj_nix_name_sig ∧
            n ∉ linkedOfType blk tg.references "analogsignal"))) ∧
    write_many blk (.tag t) (.sigs []) = blk := by
  constructor
  · intro n
    obtain ⟨x, rest, rfl⟩ : ∃ x rest, objs = x :: rest := by
      cases objs with
      | nil => exact absurd rfl hne
      | cons x rest => exact ⟨x, rest, rfl⟩
    simp only [write_many, write_many_signals, htag, tagRefs]
    rw [findTag_update_refs,
      findTag_eq_of_tags _ blk t (foldl_write_analogsignal_tags _ _), htag]
    simp only [Option.map_some', linkedOfType]
    simp only [List.mem_append, List.mem_filter, List.mem_dedup, List.mem_map,
      decide_not, Bool.not_eq_true', decide_eq_false_iff_not, List.elem_iff,
      decide_eq_true_eq]
  · rfl

/-- C1 witness: in the one-linked-child state, reconciling against the
nonempty collection `[sigB]` unlinks `x` and links `sigB`'s content
identity; the empty collection leaves the state unchanged. -/
theorem c1_reconciler_diff_witness :
    "x" ∉ tagRefs (write_many blkOneLinked (.tag "seg") (.sigs [sigB])) "seg" ∧
    get_obj_nix_name_sig sigB ∈
      tagRefs (write_many blkOneLinked (.tag "seg") (.sigs [sigB])) "seg" ∧
    write_many blkOneLinked (.tag "seg") (.sigs []) = blkOneLinked := by
  have h := c1_reconciler_diff blkOneLinked "seg"
    ⟨"seg", "segment", 0, ["x"]⟩ [sigB] (by decide) (by simp)
  refine ⟨?_, ?_, h.2⟩
  · rw [h.1 "x"]
    decide
  · rw [h.1 (get_obj_nix_name_sig sigB)]
    decide

/-!  Data-array bookkeeping lemmas. -/

theorem setArrUnit_name (u : String) (a : DataArray) :
    (setArrUnit u a).name = a.name := rfl

theorem setArrDim_name (v : Rat) (u : String) (a : DataArray) :
    (setArrDim v u a).name = a.name := by
  unfold setArrDim
  cases a.dim <;> rfl

theorem putSec_data_arrays (b : Blk) (g n : String) (s : Sec) :
    (putSec b g n s).data_arrays = b.data_arrays := rfl

theorem gocs_fst_data_arrays (b : Blk) (g n : String) :
    (get_or_create_section b g n).1.data_arrays = b.data_arrays := by
  unfold get_or_create_section
  split <;> rfl

theorem createDA_data_arrays (b : Blk) (n t d : String) (p : List Rat) :
    (createDA b n t d p).data_arrays =
      b.data_arrays ++
        [{ name := n, typ := t, stamp := b.nextStamp, dtype := d, data := p,
           unitOfArr := none, dim := none, sources := [] }] := rfl

theorem map_name_update (l : List DataArray) (n : String) (f : DataArray → DataArray)
    (hf : ∀ a, (f a).name = a.name) :
    (l.map (fun a => if a.name = n then f a else a)).map (fun a => a.name) =
      l.map (fun a => a.name) := by
  induction l with
  | nil => rfl
  | cons a rest ih =>
      by_cases h : a.name = n <;> simp [h, hf, ih]

theorem updateDA_names (b : Blk) (n : String) (f : DataArray → DataArray)
    (hf : ∀ a, (f a).name = a.name) :
    (updateDA b n f).data_arrays.map (fun a => a.name) =
      b.data_arrays.map (fun a => a.name) := by
  unfold updateDA
  exact map_name_update b.data_arrays n f hf

theorem findDA_isSome_iff (blk : Blk) (n : String) :
    (findDA blk n).isSome = true ↔ n ∈ blk.data_arrays.map (fun a => a.name) := by
  unfold findDA
  rw [List.find?_isSome]
  simp

theorem write_analogsignal_names (blk : Blk) (s : NeoAnalogSignal) :
    (write_analogsignal blk s).data_arrays.map (fun a => a.name) =
      if (findDA blk (get_obj_nix_name_sig s)).isSome
      then blk.data_arrays.map (fun a => a.name)
      else blk.data_arrays.map (fun a => a.name) ++ [get_obj_nix_name_sig s] := by
  rcases h : findDA blk (get_obj_nix_name_sig s) with _ | arr
  case none =>
    simp only [write_analogsignal, h, Option.isSome_none, Bool.false_eq_true,
      if_false, putSec_data_arrays, gocs_fst_data_arrays]
    rw [updateDA_names _ _ _ (setArrDim_name s.srValue s.srUnit),
      updateDA_names _ _ _ (setArrUnit_name s.unitsDim)]
    simp [createDA_data_arrays]
  case some =>
    simp only [write_analogsignal, h, Option.isSome_some, if_true,
      putSec_data_arrays, gocs_fst_data_arrays]
    rw [updateDA_names _ _ _ (setArrDim_name s.srValue s.srUnit),
      updateDA_names _ _ _ (setArrUnit_name s.unitsDim)]

/-- C4: the identity resolver names a data leaf purely from its payload
bytes — two leaves of the same data kind with bit-identical payload get
equal container names whatever their in-memory names are — and writing two
payload-identical analog signals into a fresh block leaves exactly one data
blob, under that content name. -/
theorem c4_content_identity (l1 l2 : LeafRepr) (s1 s2 : NeoAnalogSignal) (bn : String)
    (hk : l1.kind = l2.kind)
    (hkd : l1.kind ∈ [ObjType.analogsignal, ObjType.irregularlysampledsignal,
      ObjType.spiketrain, ObjType.event, ObjType.epoch])
    (hall : l1.allBytes = l2.allBytes) (htimes : l1.timesBytes = l2.timesBytes)
    (hs : s1.signalBytes = s2.signalBytes) :
    get_obj_nix_name l1 = get_obj_nix_name l2 ∧
    get_obj_nix_name_sig s1 = get_obj_nix_name_sig s2 ∧
    (write_analogsignal (write_analogsignal (emptyBlk bn) s1) s2).data_arrays.map
        (fun a => a.name) = [get_obj_nix_name_sig s1] := by
  have hnn : get_obj_nix_name_sig s2 = get_obj_nix_name_sig s1 := by
    simp [get_obj_nix_name_sig, hs]
  refine ⟨?_, hnn.symm, ?_⟩
  · unfold get_obj_nix_name
    rw [hk, hall, htimes]
    by_cases h1 : l2.kind ∈ [ObjType.analogsignal, .irregularlysampledsignal, .spiketrain]
    · simp [h1]
    · by_cases h2 : l2.kind ∈ [ObjType.event, .epoch]
      · simp [h1, h2]
      · exfalso
        rw [hk] at hkd
        simp only [List.mem_cons, List.mem_singleton, List.not_mem_nil, or_false] at hkd h1 h2
        rcases hkd with h | h | h | h | h <;> simp [h] at h1 h2
  · have h1 : (write_analogsignal (emptyBlk bn) s1).data_arrays.map (fun a => a.name)
        = [get_obj_nix_name_sig s1] := by
      rw [write_analogsignal_names]
      simp [findDA, emptyBlk]
    have hpos : (findDA (write_analogsignal (emptyBlk bn) s1)
        (get_obj_nix_name_sig s1)).isSome = true := by
      rw [findDA_isSome_iff, h1]
      simp
    rw [write_analogsignal_names, hnn, if_pos hpos, h1]

/-- C4 witness: two epochs with equal time-axis bytes and different
in-memory names, and two payload-equal signals named `X` and `Y`. -/
theorem c4_content_identity_witness :
    get_obj_nix_name ⟨.epoch, some "e1", [1, 2], [9]⟩ =
      get_obj_nix_name ⟨.epoch, some "e2", [1, 2], [9]⟩ ∧
    get_obj_nix_name_sig (mkSig [1] (some "X")) =
      get_obj_nix_name_sig (mkSig [1] (some "Y")) ∧
    (write_analogsignal (write_analogsignal (emptyBlk "b") (mkSig [1] (some "X")))
        (mkSig [1] (some "Y"))).data_arrays.map (fun a => a.name) =
      [get_obj_nix_name_sig (mkSig [1] (some "X"))] :=
  c4_content_identity ⟨.epoch, some "e1", [1, 2], [9]⟩ ⟨.epoch, some "e2", [1, 2], [9]⟩
    (mkSig [1] (some "X")) (mkSig [1] (some "Y")) "b"
    (by decide) (by decide) (by decide) (by decide) (by decide)

/-!  Clean-count and name frame lemmas along the write call tree. -/

theorem clean_cleanCount (b : Blk) : (clean b).cleanCount = b.cleanCount + 1 := rfl

theorem clean_name (b : Blk) : (clean b).name = b.name := rfl

theorem createTag_cleanCount (b : Blk) (n t : String) :
    (createTag b n t).cleanCount = b.cleanCount := rfl

theorem createTag_name (b : Blk) (n t : String) : (createTag b n t).name = b.name := rfl

theorem updateTag_cleanCount (b : Blk) (n : String) (f : TagNode → TagNode) :
    (updateTag b n f).cleanCount = b.cleanCount := rfl

theorem updateTag_name (b : Blk) (n : String) (f : TagNode → TagNode) :
    (updateTag b n f).name = b.name := rfl

theorem putSec_name (b : Blk) (g n : String) (s : Sec) : (putSec b g n s).name = b.name := rfl

theorem gocs_fst_name (b : Blk) (g n : String) :
    (get_or_create_section b g n).1.name = b.name := by
  unfold get_or_create_section
  split <;> rfl

theorem write_analogsignal_name (blk : Blk) (s : NeoAnalogSignal) :
    (write_analogsignal blk s).name = blk.name := by
  simp only [write_analogsignal]
  split <;> simp only [putSec_name, gocs_fst_name, updateDA_names]
  · rfl
  · rfl

theorem foldl_write_analogsignal_cleanCount (l : List NeoAnalogSignal) (blk : Blk) :
    (l.foldl write_analogsignal blk).cleanCount = blk.cleanCount := by
  induction l generalizing blk with
  | nil => rfl
  | cons x xs ih => rw [List.foldl_cons, ih, write_analogsignal_cleanCount blk x]

theorem foldl_write_analogsignal_name (l : List NeoAnalogSignal) (blk : Blk) :
    (l.foldl write_analogsignal blk).name = blk.name := by
  induction l generalizing blk with
  | nil => rfl
  | cons x xs ih => rw [List.foldl_cons, ih, write_analogsignal_name blk x]

theorem write_many_signals_cleanCount (blk : Blk) (p : Parent)
    (objs : List NeoAnalogSignal) :
    (write_many_signals blk p objs).cleanCount = blk.cleanCount := by
  cases objs with
  | nil => rfl
  | cons x rest =>
      cases p with
      | tag t =>
          simp only [write_many_signals, updateTag_cleanCount]
          exact foldl_write_analogsignal_cleanCount _ _
      | block =>
          simp only [write_many_signals]
          exact foldl_write_analogsignal_cleanCount _ _

theorem write_many_signals_name (blk : Blk) (p : Parent)
    (objs : List NeoAnalogSignal) :
    (write_many_signals blk p objs).name = blk.name := by
  cases objs with
  | nil => rfl
  | cons x rest =>
      cases p with
      | tag t =>
          simp only [write_many_signals, updateTag_name]
          exact foldl_write_analogsignal_name _ _
      | block =>
          simp only [write_many_signals]
          exact foldl_write_analogsignal_name _ _

theorem write_segment_cleanCount (blk : Blk) (seg : NeoSegment) (r : Bool) :
    (write_segment blk seg r).cleanCount = blk.cleanCount + 1 := by
  simp only [write_segment, clean_cleanCount]
  rcases h : findTag blk seg.name with _ | tg <;>
    cases r <;>
    simp [h, write_many_signals_cleanCount, putSec_cleanCount, gocs_fst_cleanCount,
      createTag_cleanCount]

theorem write_segment_name (blk : Blk) (seg : NeoSegment) (r : Bool) :
    (write_segment blk seg r).name = blk.name := by
  simp only [write_segment, clean_name]
  rcases h : findTag blk seg.name with _ | tg <;>
    cases r <;>
    simp [h, write_many_signals_name, putSec_name, gocs_fst_name, createTag_name]

theorem foldl_write_segment_cleanCount (l : List NeoSegment) (blk : Blk) :
    (l.foldl (fun b seg => write_segment b seg true) blk).cleanCount =
      blk.cleanCount + l.length := by
  induction l generalizing blk with
  | nil => rfl
  | cons x xs ih =>
      rw [List.foldl_cons, ih, write_segment_cleanCount, List.length_cons]
      omega

theorem foldl_write_segment_name (l : List NeoSegment) (blk : Blk) :
    (l.foldl (fun b seg => write_segment b seg true) blk).name = blk.name := by
  induction l generalizing blk with
  | nil => rfl
  | cons x xs ih => rw [List.foldl_cons, ih, write_segment_name]

theorem write_many_segments_cleanCount (blk : Blk) (p : Parent)
    (objs : List NeoSegment) :
    (write_many_segments blk p objs).cleanCount = blk.cleanCount + objs.length := by
  cases objs with
  | nil => rfl
  | cons x rest =>
      cases p with
      | tag t =>
          simp only [write_many_segments, updateTag_cleanCount]
          exact foldl_write_segment_cleanCount _ _
      | block =>
          simp only [write_many_segments]
          exact foldl_write_segment_cleanCount _ _

theorem write_many_segments_name (blk : Blk) (p : Parent) (objs : List NeoSegment) :
    (write_many_segments blk p objs).name = blk.name := by
  cases objs with
  | nil => rfl
  | cons x rest =>
      cases p with
      | tag t =>
          simp only [write_many_segments, updateTag_name]
          exact foldl_write_segment_name _ _
      | block =>
          simp only [write_many_segments]
          exact foldl_write_segment_name _ _

theorem find_map_update_blk (l : List Blk) (t : String) (f : Blk → Blk)
    (hf : ∀ b, (f b).name = b.name) :
    (l.map (fun b => if b.name = t then f b else b)).find? (fun b => b.name = t) =
      (l.find? (fun b => b.name = t)).map f := by
  induction l with
  | nil => rfl
  | cons b rest ih =>
      by_cases h : b.name = t
      · simp [List.find?_cons, h, hf b]
      · simp [List.find?_cons, h, ih]

theorem findBlk_updateBlk (f : NixFile) (n : String) (g : Blk → Blk)
    (hg : ∀ b, (g b).name = b.name) :
    findBlk (updateBlk f n g) n = (findBlk f n).map g := by
  unfold findBlk updateBlk
  exact find_map_update_blk f.blocks n g hg

theorem find_append_new (l : List Blk) (n : String)
    (h : l.find? (fun b => b.name = n) = none) :
    (l ++ [emptyBlk n]).find? (fun b => b.name = n) = some (emptyBlk n) := by
  induction l with
  | nil => simp [emptyBlk, List.find?_cons]
  | cons b rest ih =>
      rw [List.find?_cons] at h
      by_cases hb : b.name = n
      · simp [hb] at h
      · have hd : decide (b.name = n) = false := by simp [hb]
        simp only [hd] at h
        simp only [List.cons_append, List.find?_cons, hd]
        exact ih h

theorem findBlk_append_new (f : NixFile) (n : String)
    (h : findBlk f n = none) :
    findBlk { blocks := f.blocks ++ [emptyBlk n] } n = some (emptyBlk n) := by
  unfold findBlk at *
  exact find_append_new f.blocks n h

/-- C5 counterexample: a top-level recursive `write_block` of a block with
two segments runs the orphan sweep twice (once inside each nested
`write_segment`), not exactly once as the claim requires. -/
theorem c5_counterexample :
    blkCleanCount (write_block ⟨[]⟩ nbTwoSegs true) "blk" = 2 ∧
    blkCleanCount (write_block ⟨[]⟩ nbTwoSegs true) "blk" ≠ 1 := by
  constructor <;> decide

/-- C5 (amended): the orphan sweep runs once at the end of every
`write_segment` call — so a recursive top-level `write_block` runs it once
per segment written (zero times when not recursive), not once per top-level
write. -/
theorem c5_clean_per_nested_write (f : NixFile) (b : NeoBlock) :
    blkCleanCount (write_block f b true) b.name =
      blkCleanCount f b.name + b.segments.length ∧
    blkCleanCount (write_block f b false) b.name = blkCleanCount f b.name ∧
    (∀ blk seg r, (write_segment blk seg r).cleanCount = blk.cleanCount + 1) := by
  have hg1 : ∀ blk : Blk, (wbMeta b blk).name = blk.name := fun _ => rfl
  have hg2 : ∀ blk : Blk, (wbSegs b blk).name = blk.name :=
    fun blk => write_many_segments_name blk .block b.segments
  have hcc : ∀ blk : Blk, (wbSegs b (wbMeta b blk)).cleanCount =
      blk.cleanCount + b.segments.length := by
    intro blk
    have h1 : (wbMeta b blk).cleanCount = blk.cleanCount := rfl
    have h2 := write_many_segments_cleanCount (wbMeta b blk) .block b.segments
    simpa [wbSegs, write_many, h1] using h2
  refine ⟨?_, ?_, fun blk seg r => write_segment_cleanCount blk seg r⟩
  · simp only [write_block]
    rcases h : findBlk f b.name with _ | blk0
    · simp only [h]
      rw [if_pos trivial, blkCleanCount, findBlk_updateBlk _ _ _ hg2,
        findBlk_updateBlk _ _ _ hg1, findBlk_append_new f b.name h]
      simp only [Option.map_some']
      rw [blkCleanCount, h]
      exact hcc (emptyBlk b.name)
    · simp only [h]
      rw [if_pos trivial, blkCleanCount, findBlk_updateBlk _ _ _ hg2,
        findBlk_updateBlk _ _ _ hg1, h]
      simp only [Option.map_some']
      rw [blkCleanCount, h]
      exact hcc blk0
  · simp only [write_block]
    rcases h : findBlk f b.name with _ | blk0
    · simp only [h]
      rw [if_neg (by decide), blkCleanCount, findBlk_updateBlk _ _ _ hg1,
        findBlk_append_new f b.name h]
      simp only [Option.map_some']
      rw [blkCleanCount, h]
      rfl
    · simp only [h]
      rw [if_neg (by decide), blkCleanCount, findBlk_updateBlk _ _ _ hg1, h]
      simp only [Option.map_some']
      rw [blkCleanCount, h]
      rfl

/-!  Codec lemmas about `None`-valued attributes. -/

theorem extract_metadata_key_none (getattr : String → AttrVal)
    (annots : List (String × AttrVal)) (t : ObjType) (k : String)
    (h1 : getattr k = AttrVal.none)
    (h2 : ∀ kv ∈ annots, kv.1 = k → kv.2 = AttrVal.none) :
    ∀ kv ∈ extract_metadata getattr annots t, kv.1 = k → kv.2 = AttrVal.none := by
  unfold extract_metadata
  generalize (simpleAttrsDefault ++ simple_attrs t) = attrs
  induction attrs generalizing annots with
  | nil => exact h2
  | cons a rest ih =>
      rw [List.foldl_cons]
      apply ih
      rcases hga : getattr a with _ | v | vs
      · exact h2
      · intro kv hm hk
        rcases mem_dinsert _ _ _ _ hm with hmem | he
        · exact h2 kv hmem hk
        · exfalso
          rw [he] at hk
          simp only [] at hk
          rw [hk] at hga
          rw [h1] at hga
          cases hga
      · intro kv hm hk
        rcases mem_dinsert _ _ _ _ hm with hmem | he
        · exact h2 kv hmem hk
        · exfalso
          rw [he] at hk
          simp only [] at hk
          rw [hk] at hga
          rw [h1] at hga
          cases hga

theorem read_attributes_mem (sec : Sec) (t : ObjType) :
    ∀ kv ∈ read_attributes sec t, secGet sec kv.1 = some kv.2 := by
  unfold read_attributes
  generalize (simpleAttrsDefault ++ simple_attrs t) = attrs
  suffices h : ∀ res, (∀ kv ∈ res, secGet sec kv.1 = some kv.2) →
      ∀ kv ∈ attrs.foldl
        (fun res a =>
          match secGet sec a with
          | some v => res ++ [(a, v)]
          | none => res) res, secGet sec kv.1 = some kv.2 by
    exact h [] (by simp)
  induction attrs with
  | nil => exact fun res hr => hr
  | cons a rest ih =>
      intro res hres
      rw [List.foldl_cons]
      apply ih
      rcases hga : secGet sec a with _ | v
      · exact hres
      · intro kv hm
        rcases List.mem_append.mp hm with hmem | hmem
        · exact hres kv hmem
        · rw [List.mem_singleton] at hmem
          rw [hmem]
          exact hga

theorem read_annotations_keys (sec : Sec) (t : ObjType) :
    ∀ kv ∈ read_annotations sec t, kv.1 ∈ sec.map Prod.fst := by
  unfold read_annotations
  intro kv hm
  rcases List.mem_map.mp hm with ⟨kv0, hkv0, he⟩
  rw [← he]
  exact List.mem_map_of_mem _ (List.mem_filter.mp hkv0).1

/-!  Structure of a freshly written metadata section. -/

theorem foldl_wmStep_fresh (l : List (String × AttrVal)) (sec : Sec)
    (h : ∀ kv ∈ l, dlookup sec kv.1 = none)
    (hnd : (l.map Prod.fst).Nodup) :
    l.foldl wmStep sec = sec ++ l.map (fun kv => (kv.1, make_nix_values kv.2)) := by
  induction l generalizing sec with
  | nil => simp
  | cons kv rest ih =>
      simp only [List.map_cons, List.nodup_cons] at hnd
      rw [List.foldl_cons]
      have hstep : wmStep sec kv = sec ++ [(kv.1, make_nix_values kv.2)] := by
        unfold wmStep setProp
        rw [h kv (List.mem_cons_self _ _)]
      rw [hstep, ih _ ?hfresh hnd.2]
      · simp
      case hfresh =>
        intro kv2 h2
        have hne : kv2.1 ≠ kv.1 := by
          intro he
          exact hnd.1 (he ▸ List.mem_map_of_mem Prod.fst h2)
        rw [dlookup_append_right _ _ _ (h kv2 (List.mem_cons_of_mem _ h2))]
        simp [dlookup_cons, Ne.symm hne, dlookup_nil]

theorem write_metadata_fresh (l : List (String × AttrVal)) (sec : Sec)
    (hv : ∀ kv ∈ l, kv.2 ≠ AttrVal.none)
    (h : ∀ kv ∈ l, dlookup sec kv.1 = none)
    (hnd : (l.map Prod.fst).Nodup) :
    write_metadata sec l = sec ++ l.map (fun kv => (kv.1, make_nix_values kv.2)) := by
  rw [write_metadata_eq_foldl]
  have hfe : l.filter (fun kv => kv.2 ≠ AttrVal.none) = l :=
    List.filter_eq_self.mpr (fun kv hm => by simpa using hv kv hm)
  rw [hfe]
  exact foldl_wmStep_fresh l sec h hnd

theorem dlookup_map_val {α β : Type} (l : List (String × α)) (g : α → β) (k : String) :
    dlookup (l.map (fun kv => (kv.1, g kv.2))) k = (dlookup l k).map g := by
  induction l with
  | nil => rfl
  | cons kv rest ih =>
      by_cases h : kv.1 = k <;> simp [dlookup_cons, h, ih]

theorem em_step (getattr : String → AttrVal) (md : List (String × AttrVal))
    (a : String) (hnd : dlookup md a = none) :
    (match getattr a with
      | AttrVal.none => md
      | v => dinsert md a v) = md ++ optEntry a (getattr a) := by
  rcases hga : getattr a with _ | v | vs <;>
    simp [optEntry, hga, dinsert_absent _ _ _ hnd]

/-- The extracted metadata of an `analogsignal` object whose annotation keys
avoid the simple-attribute names: the annotation dict followed by the
present simple attributes, in table order. -/
theorem extract_metadata_analogsignal (getattr : String → AttrVal)
    (annots : List (String × AttrVal))
    (hkeys : ∀ kv ∈ annots, kv.1 ∉ ["description", "file_origin", "name"]) :
    extract_metadata getattr annots .analogsignal =
      annots ++ optEntry "description" (getattr "description") ++
        optEntry "file_origin" (getattr "file_origin") ++
        optEntry "name" (getattr "name") := by
  have hlk : ∀ k2 ∈ ["description", "file_origin", "name"], dlookup annots k2 = none := by
    intro k2 hk2
    rw [dlookup_eq_none_iff]
    intro kv hm he
    exact hkeys kv hm (he ▸ hk2)
  have hopt : ∀ k2 v k3, k2 ≠ k3 → dlookup (optEntry k2 v) k3 = none := by
    intro k2 v k3 hne
    rcases v <;> simp [optEntry, dlookup_cons, dlookup_nil, hne]
  unfold extract_metadata
  show List.foldl _ annots ["description", "file_origin", "name"] = _
  rw [List.foldl_cons, List.foldl_cons, List.foldl_cons, List.foldl_nil]
  rw [em_step getattr annots "description" (hlk "description" (by simp))]
  rw [em_step getattr _ "file_origin" ?h2]
  case h2 =>
    rw [dlookup_append_right _ _ _ (hlk "file_origin" (by simp))]
    exact hopt "description" _ "file_origin" (by decide)
  rw [em_step getattr _ "name" ?h3]
  case h3 =>
    rw [dlookup_append_right _ _ _ ?ha]
    case ha => rw [dlookup_append_right _ _ _ (hlk "name" (by simp))]
               exact hopt "description" _ "name" (by decide)
    exact hopt "file_origin" _ "name" (by decide)

/-- C10: an attribute or annotation whose value is `None` is omitted from
the persisted metadata (`extract_metadata` skips `None` simple attributes,
`write_metadata` filters `None` values), so after a write into a section not
already holding the key, the key is absent and neither `read_attributes` nor
`read_annotations` produces it on a subsequent read. -/
theorem c10_none_omitted (getattr : String → AttrVal)
    (annots : List (String × AttrVal)) (t : ObjType) (sec0 : Sec) (k : String)
    (h1 : getattr k = AttrVal.none)
    (h2 : ∀ kv ∈ annots, kv.1 = k → kv.2 = AttrVal.none)
    (h3 : dlookup sec0 k = none) :
    dlookup (write_metadata sec0 (extract_metadata getattr annots t)) k = none ∧
    (∀ kv ∈ read_annotations
      (write_metadata sec0 (extract_metadata getattr annots t)) t, kv.1 ≠ k) ∧
    (∀ kv ∈ read_attributes
      (write_metadata sec0 (extract_metadata getattr annots t)) t, kv.1 ≠ k) := by
  have hnone : dlookup (write_metadata sec0 (extract_metadata getattr annots t)) k
      = none := by
    rw [write_metadata_lookup_other _ _ _
      (extract_metadata_key_none getattr annots t k h1 h2)]
    exact h3
  refine ⟨hnone, ?_, ?_⟩
  · intro kv hm hk
    have hkeys := read_annotations_keys _ t kv hm
    rw [hk] at hkeys
    rw [dlookup_eq_none_iff] at hnone
    rcases List.mem_map.mp hkeys with ⟨kv0, h0, he⟩
    exact hnone kv0 h0 he
  · intro kv hm hk
    have hat := read_attributes_mem _ t kv hm
    rw [hk] at hat
    rw [secGet, hnone] at hat
    cases hat

/-- C10 witness: a segment with all simple attributes `None` and one
`None`-valued annotation `x`, written into a fresh section — `x` is not
persisted and is produced by neither read direction. -/
theorem c10_none_omitted_witness :
    dlookup (write_metadata [] (extract_metadata (mkSeg "s").getattr
      [("x", AttrVal.none)] .segment)) "x" = none ∧
    (∀ kv ∈ read_annotations (write_metadata [] (extract_metadata (mkSeg "s").getattr
      [("x", AttrVal.none)] .segment)) .segment, kv.1 ≠ "x") ∧
    (∀ kv ∈ read_attributes (write_metadata [] (extract_metadata (mkSeg "s").getattr
      [("x", AttrVal.none)] .segment)) .segment, kv.1 ≠ "x") :=
  c10_none_omitted (mkSeg "s").getattr [("x", AttrVal.none)] .segment [] "x"
    (by decide) (by decide) (by decide)

theorem write_analogsignal_fresh (bn : String) (s : NeoAnalogSignal) :
    write_analogsignal (emptyBlk bn) s =
      { name := bn, ownProps := [],
        metaGroups := [("analogsignals",
          [(get_obj_nix_name_sig s, write_metadata [] (sigMetadata s))])],
        tags := [],
        data_arrays := [{
          name := get_obj_nix_name_sig s, typ := "analogsignal",
          stamp := 0, dtype := s.dtype, data := s.signalBytes,
          unitOfArr := some s.unitsDim,
          dim := some ⟨s.srValue, some s.srUnit⟩, sources := [] }],
        nextStamp := 1, cleanCount := 0 } := by
  simp [write_analogsignal, emptyBlk, findDA, createDA, updateDA, putSec,
    get_or_create_section, metaSec, dlookup, dinsert, setArrUnit, setArrDim]


theorem dlookup_optEntry_ne (k2 : String) (v : AttrVal) (k3 : String) (h : ¬(k2 = k3)) :
    dlookup (optEntry k2 v) k3 = none := by
  rcases v <;> simp [optEntry, dlookup_cons, dlookup_nil, h]

theorem dlookup_append_none {α : Type} (l1 l2 : List (String × α)) (k : String)
    (h1 : dlookup l1 k = none) (h2 : dlookup l2 k = none) :
    dlookup (l1 ++ l2) k = none := by
  rw [dlookup_append_right _ _ _ h1]
  exact h2

theorem optEntry_values (k : String) (v : AttrVal) :
    ∀ kv ∈ optEntry k v, kv.2 ≠ AttrVal.none := by
  rcases v <;> simp [optEntry]

theorem optEntry_keys (k : String) (v : AttrVal) :
    ∀ a ∈ (optEntry k v).map Prod.fst, a = k := by
  rcases v <;> simp [optEntry]

theorem optEntry_keys_nodup (k : String) (v : AttrVal) :
    ((optEntry k v).map Prod.fst).Nodup := by
  rcases v <;> simp [optEntry]

theorem sigMetadata_structure (s : NeoAnalogSignal)
    (hkeys : ∀ kv ∈ s.annotations, kv.1 ∉
      (["description", "file_origin", "name", "t_start", "t_start__unit"] : List String)) :
    sigMetadata s =
      s.annotations ++ optEntry "description" s.description ++
        optEntry "file_origin" s.file_origin ++
        optEntry "name" (s.getattr "name") ++
        [("t_start", AttrVal.scalar (.r s.tStartValue)),
         ("t_start__unit", AttrVal.scalar (.s s.tStartUnit))] := by
  have hlkA : ∀ k ∈ (["description", "file_origin", "name", "t_start",
      "t_start__unit"] : List String), dlookup s.annotations k = none := by
    intro k hk
    rw [dlookup_eq_none_iff]
    intro kv hm he
    exact hkeys kv hm (he ▸ hk)
  have hgd : s.getattr "description" = s.description := rfl
  have hgf : s.getattr "file_origin" = s.file_origin := rfl
  have hts : dlookup (s.annotations ++ optEntry "description" s.description ++
      optEntry "file_origin" s.file_origin ++ optEntry "name" (s.getattr "name"))
      "t_start" = none := by
    refine dlookup_append_none _ _ _ (dlookup_append_none _ _ _
      (dlookup_append_none _ _ _ (hlkA _ (by simp)) ?_) ?_) ?_
    · exact dlookup_optEntry_ne _ _ _ (by decide)
    · exact dlookup_optEntry_ne _ _ _ (by decide)
    · exact dlookup_optEntry_ne _ _ _ (by decide)
  have htu : dlookup (s.annotations ++ optEntry "description" s.description ++
      optEntry "file_origin" s.file_origin ++ optEntry "name" (s.getattr "name") ++
      [("t_start", AttrVal.scalar (.r s.tStartValue))]) "t_start__unit" = none := by
    refine dlookup_append_none _ _ _ (dlookup_append_none _ _ _ (dlookup_append_none _ _ _
      (dlookup_append_none _ _ _ (hlkA _ (by simp)) ?_) ?_) ?_) ?_
    · exact dlookup_optEntry_ne _ _ _ (by decide)
    · exact dlookup_optEntry_ne _ _ _ (by decide)
    · exact dlookup_optEntry_ne _ _ _ (by decide)
    · simp [dlookup_cons, dlookup_nil]
  have h0 : sigMetadata s =
      dinsert (dinsert (extract_metadata s.getattr s.annotations .analogsignal)
        "t_start" (.scalar (.r s.tStartValue)))
      "t_start__unit" (.scalar (.s s.tStartUnit)) := rfl
  rw [h0, extract_metadata_analogsignal s.getattr s.annotations ?hkw]
  case hkw =>
    intro kv hm
    have := hkeys kv hm
    simp only [List.mem_cons, List.not_mem_nil, or_false] at this ⊢
    tauto
  rw [hgd, hgf]
  rw [dinsert_absent _ _ _ hts, dinsert_absent _ _ _ htu, List.append_assoc]
  rfl


theorem annots_enc_roundtrip (A : List (String × AttrVal))
    (hann : ∀ kv ∈ A, ∃ v, kv.2 = AttrVal.scalar v) :
    (A.map (fun kv => (kv.1, make_nix_values kv.2))).map
      (fun kv => ((kv.1 : String),
        match kv.2 with
        | [v] => AttrVal.scalar v
        | vs => AttrVal.multi vs)) = A := by
  induction A with
  | nil => rfl
  | cons kv rest ih =>
      obtain ⟨v, hv⟩ := hann kv (List.mem_cons_self _ _)
      simp only [List.map_cons]
      rw [ih (fun kv2 h2 => hann kv2 (List.mem_cons_of_mem _ h2))]
      rw [show make_nix_values kv.2 = [v] by rw [hv]; rfl]
      simp only []
      rw [← hv]

theorem nodup_append_str (l1 l2 : List String) (h1 : l1.Nodup) (h2 : l2.Nodup)
    (hd : ∀ a ∈ l1, a ∉ l2) : (l1 ++ l2).Nodup := by
  rw [List.nodup_append]
  exact ⟨h1, h2, fun a ha hb => hd a ha hb⟩

theorem secW_structure (s : NeoAnalogSignal)
    (hann : ∀ kv ∈ s.annotations, ∃ v, kv.2 = AttrVal.scalar v)
    (hnodup : (s.annotations.map Prod.fst).Nodup)
    (hkeys : ∀ kv ∈ s.annotations, kv.1 ∉
      (["description", "file_origin", "name", "t_start", "t_start__unit"] : List String)) :
    write_metadata [] (sigMetadata s) =
      s.annotations.map (fun kv => (kv.1, make_nix_values kv.2)) ++
        (optEntry "description" s.description).map (fun kv => (kv.1, make_nix_values kv.2)) ++
        (optEntry "file_origin" s.file_origin).map (fun kv => (kv.1, make_nix_values kv.2)) ++
        (optEntry "name" (s.getattr "name")).map (fun kv => (kv.1, make_nix_values kv.2)) ++
        [("t_start", [NixValue.r s.tStartValue]),
         ("t_start__unit", [NixValue.s s.tStartUnit])] := by
  have hAK : ∀ a ∈ s.annotations.map Prod.fst, a ∉
      (["description", "file_origin", "name", "t_start", "t_start__unit"] : List String) := by
    intro a ha
    rcases List.mem_map.mp ha with ⟨kv, hm, he⟩
    exact he ▸ hkeys kv hm
  rw [sigMetadata_structure s hkeys]
  rw [write_metadata_fresh _ _ ?hv ?hfresh ?hnd]
  · simp [List.map_append, make_nix_values]
  case hv =>
    intro kv hm
    simp only [List.append_assoc, List.mem_append] at hm
    rcases hm with h | h | h | h | h
    · obtain ⟨v, hv2⟩ := hann kv h
      rw [hv2]
      intro hc
      cases hc
    · exact optEntry_values _ _ kv h
    · exact optEntry_values _ _ kv h
    · exact optEntry_values _ _ kv h
    · rcases List.mem_cons.mp h with h2 | h2
      · rw [h2]; intro hc; cases hc
      · rcases List.mem_cons.mp h2 with h3 | h3
        · rw [h3]; intro hc; cases hc
        · cases h3
  case hfresh => intro kv _; rfl
  case hnd =>
    simp only [List.map_append, List.map_cons, List.map_nil, List.append_assoc]
    have hKD := optEntry_keys "description" s.description
    have hKF := optEntry_keys "file_origin" s.file_origin
    have hKN := optEntry_keys "name" (s.getattr "name")
    refine nodup_append_str _ _ hnodup ?_ ?_
    · refine nodup_append_str _ _ (optEntry_keys_nodup _ _) ?_ ?_
      · refine nodup_append_str _ _ (optEntry_keys_nodup _ _) ?_ ?_
        · refine nodup_append_str _ _ (optEntry_keys_nodup _ _) ?_ ?_
          · simp
          · intro a ha hb
            rw [hKN a ha] at hb
            simp at hb
        · intro a ha hb
          rw [hKF a ha] at hb
          rcases List.mem_append.mp hb with h | h
          · exact absurd (hKN _ h) (by decide)
          · simp at h
      · intro a ha hb
        rw [hKD a ha] at hb
        rcases List.mem_append.mp hb with h | h
        · exact absurd (hKF _ h) (by decide)
        · rcases List.mem_append.mp h with h2 | h2
          · exact absurd (hKN _ h2) (by decide)
          · simp at h2
    · intro a ha hb
      have haK := hAK a ha
      simp only [List.mem_cons, List.not_mem_nil, or_false] at haK
      push_neg at haK
      rcases List.mem_append.mp hb with h | h
      · exact haK.1 (hKD _ h)
      · rcases List.mem_append.mp h with h2 | h2
        · exact haK.2.1 (hKF _ h2)
        · rcases List.mem_append.mp h2 with h3 | h3
          · exact haK.2.2.1 (hKN _ h3)
          · rcases List.mem_cons.mp h3 with h4 | h4
            · exact haK.2.2.2.1 h4
            · rcases List.mem_cons.mp h4 with h5 | h5
              · exact haK.2.2.2.2 h5
              · cases h5


theorem dlookup_optEntry_map_ne (k2 : String) (v : AttrVal) (k3 : String)
    (h : ¬(k2 = k3)) :
    dlookup ((optEntry k2 v).map (fun kv => (kv.1, make_nix_values kv.2))) k3 = none := by
  rcases v <;> simp [optEntry, dlookup_cons, dlookup_nil, h]

theorem optEntry_map_keys (k : String) (v : AttrVal) :
    ∀ kv ∈ (optEntry k v).map (fun kv => ((kv.1 : String), make_nix_values kv.2)),
      kv.1 = k := by
  rcases v <;> simp [optEntry]

/-- C2 (amended): writing an analog signal into a fresh block and reading it
back reproduces the name, description, file origin, payload bytes, dtype,
unit, sampling rate (value and unit) and `t_start` quantity exactly, while
the annotation map comes back extended with the two encoded quantity entries
`t_start` and `t_start__unit` — so the round trip is the identity on
everything except the annotation map, which gains exactly those two keys. -/
theorem c2_roundtrip_amended (s : NeoAnalogSignal) (bn : String)
    (hann : ∀ kv ∈ s.annotations, ∃ v, kv.2 = AttrVal.scalar v)
    (hnodup : (s.annotations.map Prod.fst).Nodup)
    (hkeys : ∀ kv ∈ s.annotations, kv.1 ∉
      (["description", "file_origin", "name", "t_start", "t_start__unit"] : List String))
    (hdesc : s.description = AttrVal.none ∨ ∃ v, s.description = AttrVal.scalar v)
    (hfo : s.file_origin = AttrVal.none ∨ ∃ v, s.file_origin = AttrVal.scalar v)
    (hz : hzIn s.srUnit = true) :
    read_analogsignal (write_analogsignal (emptyBlk bn) s) (get_obj_nix_name_sig s) =
      Except.ok { s with annotations := s.annotations ++
        [("t_start", AttrVal.scalar (.r s.tStartValue)),
         ("t_start__unit", AttrVal.scalar (.s s.tStartUnit))] } := by
  have hW := write_analogsignal_fresh bn s
  have hsec := secW_structure s hann hnodup hkeys
  have hfind : findDA (write_analogsignal (emptyBlk bn) s) (get_obj_nix_name_sig s) =
      some { name := get_obj_nix_name_sig s, typ := "analogsignal",
             stamp := 0, dtype := s.dtype, data := s.signalBytes,
             unitOfArr := some s.unitsDim,
             dim := some ⟨s.srValue, some s.srUnit⟩, sources := [] } := by
    rw [hW]
    simp [findDA]
  have happ : ("analogsignal" ++ "s" : String) = "analogsignals" := rfl
  have hms : metaSec (write_analogsignal (emptyBlk bn) s) "analogsignal"
      (get_obj_nix_name_sig s) = some (write_metadata [] (sigMetadata s)) := by
    rw [hW]
    simp [metaSec, dlookup, happ]
  have hA5 : ∀ k ∈ (["description", "file_origin", "name", "t_start",
      "t_start__unit"] : List String),
      dlookup (s.annotations.map (fun kv => (kv.1, make_nix_values kv.2))) k = none := by
    intro k hk
    rw [dlookup_map_val]
    rw [show dlookup s.annotations k = none from ?_]
    · rfl
    · rw [dlookup_eq_none_iff]
      intro kv hm he
      exact hkeys kv hm (he ▸ hk)
  -- the t_start quantity reads back
  have hNoABC : dlookup (s.annotations.map (fun kv => (kv.1, make_nix_values kv.2)) ++
      (optEntry "description" s.description).map (fun kv => (kv.1, make_nix_values kv.2)) ++
      (optEntry "file_origin" s.file_origin).map (fun kv => (kv.1, make_nix_values kv.2)) ++
      (optEntry "name" (s.getattr "name")).map (fun kv => (kv.1, make_nix_values kv.2)))
      "t_start" = none := by
    refine dlookup_append_none _ _ _ (dlookup_append_none _ _ _
      (dlookup_append_none _ _ _ (hA5 _ (by simp)) ?_) ?_) ?_ <;>
      exact dlookup_optEntry_map_ne _ _ _ (by decide)
  have hNoABCu : dlookup (s.annotations.map (fun kv => (kv.1, make_nix_values kv.2)) ++
      (optEntry "description" s.description).map (fun kv => (kv.1, make_nix_values kv.2)) ++
      (optEntry "file_origin" s.file_origin).map (fun kv => (kv.1, make_nix_values kv.2)) ++
      (optEntry "name" (s.getattr "name")).map (fun kv => (kv.1, make_nix_values kv.2)))
      "t_start__unit" = none := by
    refine dlookup_append_none _ _ _ (dlookup_append_none _ _ _
      (dlookup_append_none _ _ _ (hA5 _ (by simp)) ?_) ?_) ?_ <;>
      exact dlookup_optEntry_map_ne _ _ _ (by decide)
  have hst : dlookup (write_metadata [] (sigMetadata s)) "t_start" =
      some [NixValue.r s.tStartValue] := by
    rw [hsec, List.append_assoc, List.append_assoc, List.append_assoc,
      ← List.append_assoc, ← List.append_assoc, ← List.append_assoc]
    rw [dlookup_append_right _ _ _ hNoABC]
    simp [dlookup_cons]
  have hsu : dlookup (write_metadata [] (sigMetadata s)) "t_start__unit" =
      some [NixValue.s s.tStartUnit] := by
    rw [hsec, List.append_assoc, List.append_assoc, List.append_assoc,
      ← List.append_assoc, ← List.append_assoc, ← List.append_assoc]
    rw [dlookup_append_right _ _ _ hNoABCu]
    simp [dlookup_cons, dlookup_nil]
  have hq : read_quantity (write_metadata [] (sigMetadata s)) "t_start" =
      Except.ok ⟨s.tStartValue, s.tStartUnit⟩ := by
    simp [read_quantity, secItem, secGet, hst, hsu, bind, Except.bind]
  -- the persisted name reads back
  have hgetname : s.getattr "name" =
      (match s.name with
       | some n => AttrVal.scalar (.s n)
       | none => AttrVal.none) := rfl
  have hname : get_obj_neo_name_da (write_metadata [] (sigMetadata s)) = s.name := by
    have hNoAB : dlookup (s.annotations.map (fun kv => (kv.1, make_nix_values kv.2)) ++
        (optEntry "description" s.description).map (fun kv => (kv.1, make_nix_values kv.2)) ++
        (optEntry "file_origin" s.file_origin).map (fun kv => (kv.1, make_nix_values kv.2)))
        "name" = none := by
      refine dlookup_append_none _ _ _
        (dlookup_append_none _ _ _ (hA5 _ (by simp)) ?_) ?_ <;>
        exact dlookup_optEntry_map_ne _ _ _ (by decide)
    rw [get_obj_neo_name_da, secGet, hsec, List.append_assoc]
    rw [dlookup_append_right _ _ _ hNoAB]
    rcases hnm : s.name with _ | nmv
    · rw [hgetname, hnm]
      simp [optEntry, dlookup_cons, dlookup_nil]
    · rw [hgetname, hnm]
      simp [optEntry, dlookup_cons, make_nix_values]
  -- the simple attributes read back as their optEntry contributions
  have hgd : secGet (write_metadata [] (sigMetadata s)) "description" =
      (match s.description with
       | AttrVal.none => none
       | v => some v) := by
    rw [secGet, hsec, List.append_assoc, List.append_assoc, List.append_assoc]
    rw [dlookup_append_right _ _ _ (hA5 _ (by simp))]
    rcases hdesc with hd | ⟨dv, hd⟩ <;> rw [hd]
    · simp only [show optEntry "description" AttrVal.none = [] from rfl,
        List.map_nil, List.nil_append]
      rw [dlookup_append_right _ _ _ (dlookup_optEntry_map_ne _ _ _ (by decide)),
        dlookup_append_right _ _ _ (dlookup_optEntry_map_ne _ _ _ (by decide))]
      simp [dlookup_cons, dlookup_nil]
    · simp [optEntry, dlookup_cons, make_nix_values]
  have hgf : secGet (write_metadata [] (sigMetadata s)) "file_origin" =
      (match s.file_origin with
       | AttrVal.none => none
       | v => some v) := by
    rw [secGet, hsec, List.append_assoc, List.append_assoc, List.append_assoc]
    rw [dlookup_append_right _ _ _ (hA5 _ (by simp))]
    rw [dlookup_append_right _ _ _ (dlookup_optEntry_map_ne _ _ _ (by decide))]
    rcases hfo with hf | ⟨fv, hf⟩ <;> rw [hf]
    · simp only [show optEntry "file_origin" AttrVal.none = [] from rfl,
        List.map_nil, List.nil_append]
      rw [dlookup_append_right _ _ _ (dlookup_optEntry_map_ne _ _ _ (by decide))]
      simp [dlookup_cons, dlookup_nil]
    · simp [optEntry, dlookup_cons, make_nix_values]
  have hgn : secGet (write_metadata [] (sigMetadata s)) "name" =
      (match s.name with
       | some n => some (AttrVal.scalar (.s n))
       | none => none) := by
    rw [secGet, hsec, List.append_assoc, List.append_assoc, List.append_assoc]
    rw [dlookup_append_right _ _ _ (hA5 _ (by simp))]
    rw [dlookup_append_right _ _ _ (dlookup_optEntry_map_ne _ _ _ (by decide))]
    rw [dlookup_append_right _ _ _ (dlookup_optEntry_map_ne _ _ _ (by decide))]
    rcases hnm : s.name with _ | nmv <;> rw [hgetname, hnm]
    · simp [optEntry, dlookup_cons, dlookup_nil]
    · simp [optEntry, dlookup_cons, make_nix_values]
  have hattrs : read_attributes (write_metadata [] (sigMetadata s)) .analogsignal =
      optEntry "description" s.description ++ optEntry "file_origin" s.file_origin ++
        optEntry "name" (s.getattr "name") := by
    have h0 : read_attributes (write_metadata [] (sigMetadata s)) .analogsignal =
        (["description", "file_origin", "name"] : List String).foldl
          (fun res a =>
            match secGet (write_metadata [] (sigMetadata s)) a with
            | some v => res ++ [(a, v)]
            | none => res) [] := rfl
    rw [h0, List.foldl_cons, List.foldl_cons, List.foldl_cons, List.foldl_nil,
      hgd, hgf, hgn]
    rcases hdesc with hd | ⟨dv, hd⟩ <;> rcases hfo with hf | ⟨fv, hf⟩ <;>
      rcases hnm : s.name with _ | nmv <;>
      rw [hd, hf, hgetname, hnm] <;>
      simp [optEntry]
  -- the annotations read back extended with the two t_start entries
  have hra : read_annotations (write_metadata [] (sigMetadata s)) .analogsignal =
      s.annotations ++ [("t_start", AttrVal.scalar (.r s.tStartValue)),
        ("t_start__unit", AttrVal.scalar (.s s.tStartUnit))] := by
    rw [hsec]
    unfold read_annotations
    simp only [simpleAttrsDefault, simple_attrs, List.cons_append, List.nil_append,
      List.filter_append, List.map_append]
    have hfA : List.filter
        (fun kv => decide (kv.1 ∉ (["description", "file_origin", "name"] : List String)))
        (s.annotations.map (fun kv => (kv.1, make_nix_values kv.2))) =
        s.annotations.map (fun kv => (kv.1, make_nix_values kv.2)) := by
      refine List.filter_eq_self.mpr (fun kv hm => ?_)
      rcases List.mem_map.mp hm with ⟨kv0, h0, he⟩
      have hk := hkeys kv0 h0
      simp only [List.mem_cons, List.not_mem_nil, or_false] at hk
      push_neg at hk
      rw [← he]
      simp [hk.1, hk.2.1, hk.2.2.1]
    have hfD : ∀ v : AttrVal, List.filter
        (fun kv => decide (kv.1 ∉ (["description", "file_origin", "name"] : List String)))
        ((optEntry "description" v).map (fun kv => (kv.1, make_nix_values kv.2))) = [] := by
      intro v
      rcases v <;> simp [optEntry]
    have hfF : ∀ v : AttrVal, List.filter
        (fun kv => decide (kv.1 ∉ (["description", "file_origin", "name"] : List String)))
        ((optEntry "file_origin" v).map (fun kv => (kv.1, make_nix_values kv.2))) = [] := by
      intro v
      rcases v <;> simp [optEntry]
    have hfN : ∀ v : AttrVal, List.filter
        (fun kv => decide (kv.1 ∉ (["description", "file_origin", "name"] : List String)))
        ((optEntry "name" v).map (fun kv => (kv.1, make_nix_values kv.2))) = [] := by
      intro v
      rcases v <;> simp [optEntry]
    rw [hfA, hfD, hfF, hfN]
    simp only [List.map_nil, List.nil_append, List.append_nil]
    rw [annots_enc_roundtrip s.annotations hann]
    simp
  rcases hdesc with hd | ⟨dv, hd⟩ <;> rcases hfo with hf | ⟨fv, hf⟩ <;>
    rcases hnm : s.name with _ | nmv <;>
    rw [hgetname, hnm] at hattrs <;>
    rw [hd, hf] at hattrs <;>
    simp only [read_analogsignal, hfind, hms, bind, Except.bind, hq, hname, hattrs,
      hra, hz] <;>
    simp [optEntry, applySigAttr, hd, hf, hnm, pure, Except.pure]


/-- C2 counterexample: for a signal with one annotation, the annotation map
of `read(write(obj))` differs from the original — the persisted `t_start`
and `t_start__unit` metadata entries come back as extra annotations. -/
theorem c2_counterexample :
    (read_analogsignal (write_analogsignal (emptyBlk "b") sigAnn)
        (get_obj_nix_name_sig sigAnn)).map (fun r => r.annotations) ≠
      Except.ok sigAnn.annotations := by decide

/-- C2 witness: the amended round trip at the concrete annotated signal. -/
theorem c2_roundtrip_amended_witness :
    read_analogsignal (write_analogsignal (emptyBlk "b") sigAnn) (get_obj_nix_name_sig sigAnn) =
      Except.ok { sigAnn with annotations := sigAnn.annotations ++
        [("t_start", AttrVal.scalar (.r sigAnn.tStartValue)),
         ("t_start__unit", AttrVal.scalar (.s sigAnn.tStartUnit))] } :=
  c2_roundtrip_amended sigAnn "b"
    (by
      intro kv hm
      simp only [sigAnn, List.mem_singleton] at hm
      exact ⟨NixValue.s "bar", by rw [hm]⟩)
    (by decide) (by decide)
    (Or.inr ⟨NixValue.s "d", rfl⟩) (Or.inl rfl) (by decide)

theorem map_id_of_mem {α : Type} (l : List α) (g : α → α) (h : ∀ a ∈ l, g a = a) :
    l.map g = l := by
  induction l with
  | nil => rfl
  | cons a rest ih =>
      rw [List.map_cons, h a (List.mem_cons_self _ _),
        ih (fun a2 h2 => h a2 (List.mem_cons_of_mem _ h2))]

theorem eq_of_find_nodup (l : List DataArray) (n : String) (arr : DataArray)
    (hnd : (l.map (fun a => a.name)).Nodup)
    (hf : l.find? (fun a => a.name = n) = some arr) :
    ∀ a ∈ l, a.name = n → a = arr := by
  induction l with
  | nil => simp at hf
  | cons a0 rest ih =>
      simp only [List.map_cons, List.nodup_cons] at hnd
      rw [List.find?_cons] at hf
      by_cases h0 : a0.name = n
      · have hd0 : decide (a0.name = n) = true := by simp [h0]
        simp only [hd0] at hf
        intro a ha hn
        rcases List.mem_cons.mp ha with he | hm
        · rw [he, Option.some.inj hf]
        · exfalso
          refine hnd.1 ?_
          rw [h0, ← hn]
          exact List.mem_map_of_mem _ hm
      · have hd0 : decide (a0.name = n) = false := by simp [h0]
        simp only [hd0] at hf
        intro a ha hn
        rcases List.mem_cons.mp ha with he | hm
        · exact absurd (he ▸ hn) h0
        · exact ih hnd.2 hf a hm hn

theorem updateDA_noop (blk : Blk) (n : String) (f : DataArray → DataArray)
    (arr : DataArray)
    (hnd : (blk.data_arrays.map (fun a => a.name)).Nodup)
    (hfind : findDA blk n = some arr) (hi : f arr = arr) :
    updateDA blk n f = blk := by
  unfold updateDA
  rw [map_id_of_mem _ _ ?hall]
  case hall =>
    intro a ha
    by_cases h2 : a.name = n
    · rw [if_pos h2, eq_of_find_nodup _ _ _ hnd hfind a ha h2, hi,
        ← eq_of_find_nodup _ _ _ hnd hfind a ha h2]
    · rw [if_neg h2]

theorem setArrUnit_noop (u : String) (a : DataArray) (h : a.unitOfArr = some u) :
    setArrUnit u a = a := by
  cases a
  simp only [setArrUnit] at *
  simp [← h]

theorem setArrDim_noop (v : Rat) (u : String) (a : DataArray) (d0 : SampledDim)
    (h1 : a.dim = some d0) (h2 : d0.unitOfDim = some u) :
    setArrDim v u a = a := by
  unfold setArrDim
  rw [h1]
  cases a
  cases d0
  simp only at h1
  simp only at h2
  simp [h1, ← h2]

theorem gocs_of_some (blk : Blk) (g n : String) (sec : Sec)
    (h : metaSec blk g n = some sec) :
    get_or_create_section blk g n = (blk, sec) := by
  unfold get_or_create_section
  rw [h]

theorem putSec_noop (blk : Blk) (g n : String) (sec : Sec)
    (h : metaSec blk g n = some sec) :
    putSec blk g n sec = blk := by
  unfold metaSec at h
  rcases hg : dlookup blk.metaGroups (g ++ "s") with _ | grp
  · rw [hg] at h
    cases h
  · rw [hg] at h
    rw [show (some grp).bind (fun secs => dlookup secs n) = dlookup grp n from rfl] at h
    unfold putSec
    rw [hg]
    simp only [Option.getD_some]
    rw [dinsert_lookup_self _ _ _ h, dinsert_lookup_self _ _ _ hg]

theorem write_analogsignal_noop (blk : Blk) (s : NeoAnalogSignal)
    (arr : DataArray) (d0 : SampledDim) (sec : Sec)
    (hnd : (blk.data_arrays.map (fun a => a.name)).Nodup)
    (hfind : findDA blk (get_obj_nix_name_sig s) = some arr)
    (hunit : arr.unitOfArr = some s.unitsDim)
    (hdim : arr.dim = some d0) (hdimu : d0.unitOfDim = some s.srUnit)
    (hsec : metaSec blk "analogsignal" (get_obj_nix_name_sig s) = some sec)
    (hwm : write_metadata sec (sigMetadata s) = sec) :
    write_analogsignal blk s = blk := by
  simp only [write_analogsignal, hfind]
  rw [updateDA_noop _ _ _ _ hnd hfind (setArrUnit_noop _ _ hunit)]
  rw [updateDA_noop _ _ _ _ hnd hfind (setArrDim_noop _ _ _ _ hdim hdimu)]
  rw [gocs_of_some _ _ _ _ hsec]
  simp only []
  rw [hwm]
  exact putSec_noop _ _ _ _ hsec

theorem updateTag_data_arrays (b : Blk) (t : String) (f : TagNode → TagNode) :
    (updateTag b t f).data_arrays = b.data_arrays := rfl

theorem findDA_updateTag (b : Blk) (t n : String) (f : TagNode → TagNode) :
    findDA (updateTag b t f) n = findDA b n := rfl

theorem updateDA_data_arrays_eq (b : Blk) (n : String) (f : DataArray → DataArray) :
    (updateDA b n f).data_arrays =
      b.data_arrays.map (fun a => if a.name = n then f a else a) := rfl

theorem write_analogsignal_data_new (blk : Blk) (s : NeoAnalogSignal)
    (h : findDA blk (get_obj_nix_name_sig s) = none) :
    (write_analogsignal blk s).data_arrays =
      blk.data_arrays ++
        [{ name := get_obj_nix_name_sig s, typ := "analogsignal",
           stamp := blk.nextStamp, dtype := s.dtype, data := s.signalBytes,
           unitOfArr := some s.unitsDim,
           dim := some ⟨s.srValue, some s.srUnit⟩, sources := [] }] := by
  have hall : ∀ a ∈ blk.data_arrays, ¬(a.name = get_obj_nix_name_sig s) := by
    intro a ha he
    have h2 := List.find?_eq_none.mp h a ha
    simp [he] at h2
  simp only [write_analogsignal, h, putSec_data_arrays, gocs_fst_data_arrays]
  rw [updateDA_data_arrays_eq, updateDA_data_arrays_eq, createDA_data_arrays]
  simp only [List.map_append, List.map_cons, List.map_nil]
  rw [map_id_of_mem _ _ (fun a ha => if_neg (hall a ha))]
  rw [map_id_of_mem _ _ (fun a ha => if_neg (hall a ha))]
  simp [setArrUnit, setArrDim]

/-- C3: reconciling a parent persisted with children A, B, C against the
collection B, C, D unlinks A from a reference-list parent (its container node
surviving, as it is not exclusively owned there) and deletes A's container
node outright for an exclusive-containment parent; B and C are untouched,
their container nodes keeping their records and creation stamps; D is newly
present, linked, and carries a fresh creation stamp. -/
theorem c3_reconciliation (blk : Blk) (t : String) (tg : TagNode)
    (sA sB sC sD : NeoAnalogSignal) (aA aB aC : DataArray)
    (dB dC : SampledDim) (secB secC : Sec)
    (htags : blk.tags = [tg]) (htn : tg.name = t)
    (htr : tg.references =
      [get_obj_nix_name_sig sA, get_obj_nix_name_sig sB, get_obj_nix_name_sig sC])
    (hdas : blk.data_arrays = [aA, aB, aC])
    (haAn : aA.name = get_obj_nix_name_sig sA) (haAt : aA.typ = "analogsignal")
    (haBn : aB.name = get_obj_nix_name_sig sB) (haBt : aB.typ = "analogsignal")
    (haCn : aC.name = get_obj_nix_name_sig sC) (haCt : aC.typ = "analogsignal")
    (hAB : get_obj_nix_name_sig sA ≠ get_obj_nix_name_sig sB)
    (hAC : get_obj_nix_name_sig sA ≠ get_obj_nix_name_sig sC)
    (hAD : get_obj_nix_name_sig sA ≠ get_obj_nix_name_sig sD)
    (hBC : get_obj_nix_name_sig sB ≠ get_obj_nix_name_sig sC)
    (hBD : get_obj_nix_name_sig sB ≠ get_obj_nix_name_sig sD)
    (hCD : get_obj_nix_name_sig sC ≠ get_obj_nix_name_sig sD)
    (hBu : aB.unitOfArr = some sB.unitsDim) (hBd : aB.dim = some dB)
    (hBdu : dB.unitOfDim = some sB.srUnit)
    (hBs : metaSec blk "analogsignal" (get_obj_nix_name_sig sB) = some secB)
    (hBw : write_metadata secB (sigMetadata sB) = secB)
    (hCu : aC.unitOfArr = some sC.unitsDim) (hCd : aC.dim = some dC)
    (hCdu : dC.unitOfDim = some sC.srUnit)
    (hCs : metaSec blk "analogsignal" (get_obj_nix_name_sig sC) = some secC)
    (hCw : write_metadata secC (sigMetadata sC) = secC) :
    (tagRefs (write_many blk (.tag t) (.sigs [sB, sC, sD])) t =
        [get_obj_nix_name_sig sB, get_obj_nix_name_sig sC,
          get_obj_nix_name_sig sD] ∧
      findDA (write_many blk (.tag t) (.sigs [sB, sC, sD]))
        (get_obj_nix_name_sig sA) = some aA ∧
      findDA (write_many blk (.tag t) (.sigs [sB, sC, sD]))
        (get_obj_nix_name_sig sB) = some aB ∧
      findDA (write_many blk (.tag t) (.sigs [sB, sC, sD]))
        (get_obj_nix_name_sig sC) = some aC ∧
      findDA (write_many blk (.tag t) (.sigs [sB, sC, sD]))
        (get_obj_nix_name_sig sD) =
          some { name := get_obj_nix_name_sig sD, typ := "analogsignal",
                 stamp := blk.nextStamp, dtype := sD.dtype,
                 data := sD.signalBytes, unitOfArr := some sD.unitsDim,
                 dim := some ⟨sD.srValue, some sD.srUnit⟩, sources := [] }) ∧
    (findDA (write_many blk .block (.sigs [sB, sC, sD]))
        (get_obj_nix_name_sig sA) = none ∧
      findDA (write_many blk .block (.sigs [sB, sC, sD]))
        (get_obj_nix_name_sig sB) = some aB ∧
      findDA (write_many blk .block (.sigs [sB, sC, sD]))
        (get_obj_nix_name_sig sC) = some aC ∧
      findDA (write_many blk .block (.sigs [sB, sC, sD]))
        (get_obj_nix_name_sig sD) =
          some { name := get_obj_nix_name_sig sD, typ := "analogsignal",
                 stamp := blk.nextStamp, dtype := sD.dtype,
                 data := sD.signalBytes, unitOfArr := some sD.unitsDim,
                 dim := some ⟨sD.srValue, some sD.srUnit⟩, sources := [] }) := by
  have htag2 : findTag blk t = some tg := by
    unfold findTag
    rw [htags, List.find?_cons]
    have hd : decide (tg.name = t) = true := by simp [htn]
    simp only [hd]
  have hnodup : (blk.data_arrays.map (fun a => a.name)).Nodup := by
    rw [hdas]
    simp [haAn, haBn, haCn, List.nodup_cons, hAB, hAC, hBC]
  have hfB : findDA blk (get_obj_nix_name_sig sB) = some aB := by
    unfold findDA
    rw [hdas, List.find?_cons]
    have h1 : decide (aA.name = get_obj_nix_name_sig sB) = false := by
      simp [haAn, hAB]
    simp only [h1]
    rw [List.find?_cons]
    have h2 : decide (aB.name = get_obj_nix_name_sig sB) = true := by simp [haBn]
    simp only [h2]
  have hfC : findDA blk (get_obj_nix_name_sig sC) = some aC := by
    unfold findDA
    rw [hdas, List.find?_cons]
    have h1 : decide (aA.name = get_obj_nix_name_sig sC) = false := by
      simp [haAn, hAC]
    simp only [h1]
    rw [List.find?_cons]
    have h2 : decide (aB.name = get_obj_nix_name_sig sC) = false := by
      simp [haBn, hBC]
    simp only [h2]
    rw [List.find?_cons]
    have h3 : decide (aC.name = get_obj_nix_name_sig sC) = true := by simp [haCn]
    simp only [h3]
  have hfD : findDA blk (get_obj_nix_name_sig sD) = none := by
    unfold findDA
    rw [hdas, List.find?_eq_none]
    intro a ha
    simp only [List.mem_cons, List.not_mem_nil, or_false] at ha
    rcases ha with rfl | rfl | rfl
    · simp [haAn, hAD]
    · simp [haBn, hBD]
    · simp [haCn, hCD]
  have hnoopB : write_analogsignal blk sB = blk :=
    write_analogsignal_noop blk sB aB dB secB hnodup hfB hBu hBd hBdu hBs hBw
  have hnoopC : write_analogsignal blk sC = blk :=
    write_analogsignal_noop blk sC aC dC secC hnodup hfC hCu hCd hCdu hCs hCw
  have hfold : [sB, sC, sD].foldl write_analogsignal blk =
      write_analogsignal blk sD := by
    rw [List.foldl_cons, hnoopB, List.foldl_cons, hnoopC, List.foldl_cons,
      List.foldl_nil]
  have hDarr : (write_analogsignal blk sD).data_arrays =
      [aA, aB, aC,
        { name := get_obj_nix_name_sig sD, typ := "analogsignal",
          stamp := blk.nextStamp, dtype := sD.dtype,
          data := sD.signalBytes, unitOfArr := some sD.unitsDim,
          dim := some ⟨sD.srValue, some sD.srUnit⟩, sources := [] }] := by
    rw [write_analogsignal_data_new blk sD hfD, hdas]
    rfl
  have e1 : blk.data_arrays.filter (fun a => a.typ = "analogsignal") =
      [aA, aB, aC] := by
    rw [hdas]
    simp [List.filter_cons, haAt, haBt, haCt]
  have e2 : List.filter
      (fun a => List.contains [get_obj_nix_name_sig sA, get_obj_nix_name_sig sB,
        get_obj_nix_name_sig sC] a.name) [aA, aB, aC] = [aA, aB, aC] := by
    simp [List.filter_cons, haAn, haBn, haCn]
  have e3 : List.map (fun a => a.name) [aA, aB, aC] =
      [get_obj_nix_name_sig sA, get_obj_nix_name_sig sB,
        get_obj_nix_name_sig sC] := by
    simp [haAn, haBn, haCn]
  have e5 : List.filter
      (fun n => n ∉ [get_obj_nix_name_sig sB, get_obj_nix_name_sig sC,
        get_obj_nix_name_sig sD])
      [get_obj_nix_name_sig sA, get_obj_nix_name_sig sB,
        get_obj_nix_name_sig sC] = [get_obj_nix_name_sig sA] := by
    have hnA : get_obj_nix_name_sig sA ∉
        [get_obj_nix_name_sig sB, get_obj_nix_name_sig sC,
          get_obj_nix_name_sig sD] := by
      simp [hAB, hAC, hAD]
    simp [List.filter_cons, hnA]
    exact ⟨hAB, hAC, hAD⟩
  have e6 : (List.filter
      (fun n => n ∉ [get_obj_nix_name_sig sA, get_obj_nix_name_sig sB,
        get_obj_nix_name_sig sC])
      [get_obj_nix_name_sig sB, get_obj_nix_name_sig sC,
        get_obj_nix_name_sig sD]).dedup = [get_obj_nix_name_sig sD] := by
    have hnD : get_obj_nix_name_sig sD ∉
        [get_obj_nix_name_sig sA, get_obj_nix_name_sig sB,
          get_obj_nix_name_sig sC] := by
      simp [Ne.symm hAD, Ne.symm hBD, Ne.symm hCD]
    simp [List.filter_cons, hnD]
    rw [if_pos ⟨Ne.symm hAD, Ne.symm hBD, Ne.symm hCD⟩]
    simp
  have e7 : List.filter (fun n => n ∉ [get_obj_nix_name_sig sA])
      [get_obj_nix_name_sig sA, get_obj_nix_name_sig sB,
        get_obj_nix_name_sig sC] =
      [get_obj_nix_name_sig sB, get_obj_nix_name_sig sC] := by
    simp [List.filter_cons, Ne.symm hAB, Ne.symm hAC]
  refine ⟨⟨?_, ?_, ?_, ?_, ?_⟩, ?_, ?_, ?_, ?_⟩
  · simp only [write_many, write_many_signals, htag2, tagRefs]
    rw [findTag_update_refs,
      findTag_eq_of_tags _ blk t (foldl_write_analogsignal_tags _ _), htag2]
    simp only [Option.map_some', htr, List.map_cons, List.map_nil, e1, e2, e3,
      e5, e6, e7]
    rfl
  · simp only [write_many, write_many_signals, htag2]
    rw [findDA_updateTag, hfold]
    unfold findDA
    rw [hDarr, List.find?_cons]
    have h1 : decide (aA.name = get_obj_nix_name_sig sA) = true := by simp [haAn]
    simp only [h1]
  · simp only [write_many, write_many_signals, htag2]
    rw [findDA_updateTag, hfold]
    unfold findDA
    rw [hDarr, List.find?_cons]
    have h1 : decide (aA.name = get_obj_nix_name_sig sB) = false := by
      simp [haAn, hAB]
    simp only [h1]
    rw [List.find?_cons]
    have h2 : decide (aB.name = get_obj_nix_name_sig sB) = true := by simp [haBn]
    simp only [h2]
  · simp only [write_many, write_many_signals, htag2]
    rw [findDA_updateTag, hfold]
    unfold findDA
    rw [hDarr, List.find?_cons]
    have h1 : decide (aA.name = get_obj_nix_name_sig sC) = false := by
      simp [haAn, hAC]
    simp only [h1]
    rw [List.find?_cons]
    have h2 : decide (aB.name = get_obj_nix_name_sig sC) = false := by
      simp [haBn, hBC]
    simp only [h2]
    rw [List.find?_cons]
    have h3 : decide (aC.name = get_obj_nix_name_sig sC) = true := by simp [haCn]
    simp only [h3]
  · simp only [write_many, write_many_signals, htag2]
    rw [findDA_updateTag, hfold]
    unfold findDA
    rw [hDarr, List.find?_cons]
    have h1 : decide (aA.name = get_obj_nix_name_sig sD) = false := by
      simp [haAn, hAD]
    simp only [h1]
    rw [List.find?_cons]
    have h2 : decide (aB.name = get_obj_nix_name_sig sD) = false := by
      simp [haBn, hBD]
    simp only [h2]
    rw [List.find?_cons]
    have h3 : decide (aC.name = get_obj_nix_name_sig sD) = false := by
      simp [haCn, hCD]
    simp only [h3]
    rw [List.find?_cons]
    simp
  · simp only [write_many, write_many_signals, hfold, List.map_cons,
      List.map_nil, e1, e3, e5]
    unfold findDA
    rw [hDarr]
    simp [List.filter_cons, List.find?_cons, haAn, haBn, haCn, Ne.symm hAB,
      Ne.symm hAC, Ne.symm hAD]
  · simp only [write_many, write_many_signals, hfold, List.map_cons,
      List.map_nil, e1, e3, e5]
    unfold findDA
    rw [hDarr]
    simp [List.filter_cons, List.find?_cons, haAn, haBn, haCn, Ne.symm hAB,
      Ne.symm hAC, Ne.symm hAD, hBC, hBD, hCD]
  · simp only [write_many, write_many_signals, hfold, List.map_cons,
      List.map_nil, e1, e3, e5]
    unfold findDA
    rw [hDarr]
    simp [List.filter_cons, List.find?_cons, haAn, haBn, haCn, Ne.symm hAB,
      Ne.symm hAC, Ne.symm hAD, hBC, hBD, hCD]
  · simp only [write_many, write_many_signals, hfold, List.map_cons,
      List.map_nil, e1, e3, e5]
    unfold findDA
    rw [hDarr]
    simp [List.filter_cons, List.find?_cons, haAn, haBn, haCn, Ne.symm hAB,
      Ne.symm hAC, Ne.symm hAD, hBC, hBD, hCD]

/-- C3 witness: the concrete persisted A,B,C state reconciled against B,C,D. -/
theorem c3_reconciliation_witness :
    (tagRefs (write_many blkC3 (.tag "seg") (.sigs [sigB, sigC, sigD])) "seg" =
        [get_obj_nix_name_sig sigB, get_obj_nix_name_sig sigC,
          get_obj_nix_name_sig sigD] ∧
      findDA (write_many blkC3 (.tag "seg") (.sigs [sigB, sigC, sigD]))
        (get_obj_nix_name_sig sigA) = some (arrFor sigA) ∧
      findDA (write_many blkC3 (.tag "seg") (.sigs [sigB, sigC, sigD]))
        (get_obj_nix_name_sig sigB) = some (arrFor sigB) ∧
      findDA (write_many blkC3 (.tag "seg") (.sigs [sigB, sigC, sigD]))
        (get_obj_nix_name_sig sigC) = some (arrFor sigC) ∧
      findDA (write_many blkC3 (.tag "seg") (.sigs [sigB, sigC, sigD]))
        (get_obj_nix_name_sig sigD) =
          some { name := get_obj_nix_name_sig sigD, typ := "analogsignal",
                 stamp := 3, dtype := sigD.dtype,
                 data := sigD.signalBytes, unitOfArr := some sigD.unitsDim,
                 dim := some ⟨sigD.srValue, some sigD.srUnit⟩,
                 sources := [] }) ∧
    (findDA (write_many blkC3 .block (.sigs [sigB, sigC, sigD]))
        (get_obj_nix_name_sig sigA) = none ∧
      findDA (write_many blkC3 .block (.sigs [sigB, sigC, sigD]))
        (get_obj_nix_name_sig sigB) = some (arrFor sigB) ∧
      findDA (write_many blkC3 .block (.sigs [sigB, sigC, sigD]))
        (get_obj_nix_name_sig sigC) = some (arrFor sigC) ∧
      findDA (write_many blkC3 .block (.sigs [sigB, sigC, sigD]))
        (get_obj_nix_name_sig sigD) =
          some { name := get_obj_nix_name_sig sigD, typ := "analogsignal",
                 stamp := 3, dtype := sigD.dtype,
                 data := sigD.signalBytes, unitOfArr := some sigD.unitsDim,
                 dim := some ⟨sigD.srValue, some sigD.srUnit⟩,
                 sources := [] }) :=
  c3_reconciliation blkC3 "seg" tagC3 sigA sigB sigC sigD
    (arrFor sigA) (arrFor sigB) (arrFor sigC) (dimFor sigB) (dimFor sigC)
    (secFor sigB) (secFor sigC)
    rfl rfl rfl rfl rfl rfl rfl rfl rfl rfl
    (by decide) (by decide) (by decide) (by decide) (by decide) (by decide)
    rfl rfl rfl (by decide) (by decide)
    rfl rfl rfl (by decide) (by decide)

end Neo2nix
